import Mathlib

/-!
# A verification model of the go-rest dispatch engine

This file gives a shallow embedding, in Lean, of the `rest` package
(`server.go`, the `HandleGET`/`HandlePOST`/`RunServer` revision) together
with the parts of the Go standard library that the package's behaviour
depends on (`strconv` parsing, `net/url` query decoding, `net/http` form
parsing, mux registration and error writing, and an executable model of
`encoding/json`).  Go panics are modelled as the `.error` branch of
`Except String`; machine integers appear as `Int`/`Nat` with explicit
64-bit range checks where the library checks ranges.

Modelling notes, recorded once here:
* `float64` values are modelled as exact decimal numbers
  (`GoFloat.finite m e` denotes `m / 10^e`) plus infinities and NaN;
  binary64 rounding is not modelled.  No theorem below depends on
  rounding, only on parse success/failure and on the marshal failure for
  non-finite values, which `encoding/json` really exhibits.
* The struct universe is structs whose exported fields have scalar type
  (string, bool, the integer kinds, the unsigned kinds, the float kinds);
  these are exactly the kinds that the package's form-coercion switch
  handles.  The integer kinds share one code path in the source
  (`strconv.ParseInt(v, 0, 64)` then `SetInt`), as do the unsigned and the
  float kinds, so one `FieldKind` per family suffices.
* `strconv.ParseFloat`, `encoding/xml.Unmarshal` and
  `http.DetectContentType` are external primitives whose internals no
  claim depends on; they are bundled in an `Ext` record and every theorem
  is proved for an arbitrary `Ext`.
-/

namespace GoRest

/-! ## url.Values and query decoding (net/url) -/

/-- `url.Values` is `map[string][]string`; the model keeps it as an
association list whose keys are distinct (first-insertion order). -/
abbrev Form := List (String × List String)

/-- Append value `v` under key `k`, creating the key at the end if absent
(the map-append `m[k] = append(m[k], v)`). -/
def formAdd (f : Form) (k v : String) : Form :=
  match f with
  | [] => [(k, [v])]
  | (k0, vs) :: rest =>
      if k0 = k then (k0, vs ++ [v]) :: rest
      else (k0, vs) :: formAdd rest k v

def formLookup (f : Form) (k : String) : Option (List String) :=
  match f with
  | [] => none
  | (k0, vs) :: rest => if k0 = k then some vs else formLookup rest k

/-- `url.Values.Get`: first value for the key, or `""`. -/
def formGet (f : Form) (k : String) : String :=
  match formLookup f k with
  | some (v :: _) => v
  | _ => ""

/-- `len(m)` for a `url.Values` map: the number of keys. -/
def formNumKeys (f : Form) : Nat := f.length

def formKeys (f : Form) : List String := f.map Prod.fst

def hexVal (c : Char) : Option Nat :=
  if '0' ≤ c ∧ c ≤ '9' then some (c.toNat - 48)
  else if 'a' ≤ c ∧ c ≤ 'f' then some (c.toNat - 87)
  else if 'A' ≤ c ∧ c ≤ 'F' then some (c.toNat - 55)
  else none

/-- `url.QueryUnescape`: `%XX` hex escapes and `+` as space; any
malformed escape fails the whole unescape.  (Escapes are decoded to the
code point of the byte value; multi-byte UTF-8 reassembly is not
modelled, which no claim exercises.) -/
def queryUnescape : List Char → Option (List Char)
  | [] => some []
  | ['%'] => none
  | ['%', _] => none
  | '%' :: c1 :: c2 :: rest2 =>
      match hexVal c1, hexVal c2 with
      | some h1, some h2 =>
          (queryUnescape rest2).map (fun r => Char.ofNat (h1 * 16 + h2) :: r)
      | _, _ => none
  | c :: rest =>
      if c = '+' then (queryUnescape rest).map (fun r => ' ' :: r)
      else (queryUnescape rest).map (fun r => c :: r)

/-- Split a character list at every occurrence of `sep` (dropped). -/
def splitOnChar (sep : Char) : List Char → List (List Char)
  | [] => [[]]
  | c :: rest =>
      let r := splitOnChar sep rest
      if c = sep then [] :: r
      else match r with
        | [] => [[c]]
        | p :: ps => (c :: p) :: ps

/-- `url.ParseQuery`, errors swallowed as the package does: cut on `&`,
reject pieces containing `;`, skip empty pieces, cut each piece on the
first `=`, unescape key and value, skipping the pair if either fails.
Returns the pairs in text order. -/
def parseQueryPairs (raw : String) : List (String × String) :=
  (splitOnChar '&' raw.data).foldr
    (fun piece acc =>
      if piece = [] then acc
      else if piece.contains ';' then acc
      else
        let key := piece.takeWhile (· ≠ '=')
        let val := (piece.dropWhile (· ≠ '=')).drop 1
        match queryUnescape key, queryUnescape val with
        | some k, some v => (⟨k⟩, (⟨v⟩ : String)) :: acc
        | _, _ => acc)
    []

def formOfPairs (ps : List (String × String)) : Form :=
  ps.foldl (fun f p => formAdd f p.1 p.2) []

/-- `request.URL.Query()`: the decoded query string. -/
def parseQuery (raw : String) : Form := formOfPairs (parseQueryPairs raw)

/-! ## Scalar kinds and values (the reflect fragment the package uses) -/

inductive FieldKind
  | str | boolK | intK | uintK | floatK
  deriving DecidableEq, Repr

/-- A `float64` value as an exact decimal: `finite m e` denotes
`m / 10^e`.  Binary rounding is not modelled (see the header note). -/
inductive GoFloat
  | finite (m : Int) (e : Nat)
  | inf (neg : Bool)
  | nan
  deriving DecidableEq, Repr

inductive FieldVal
  | str (s : String)
  | boolV (b : Bool)
  | intV (i : Int)
  | uintV (n : Nat)
  | floatV (x : GoFloat)
  deriving DecidableEq, Repr

/-- One struct field: its name, kind, whether `reflect` can set it
(exported) and whether it carries the ignore tag used by
`encoding/json`. -/
structure FieldDesc where
  name : String
  kind : FieldKind
  canSet : Bool
  jsonIgnore : Bool
  deriving DecidableEq, Repr

structure StructDesc where
  fields : List FieldDesc
  deriving DecidableEq, Repr

abbrev StructVal := List FieldVal

def zeroField : FieldKind → FieldVal
  | .str => .str ""
  | .boolK => .boolV false
  | .intK => .intV 0
  | .uintK => .uintV 0
  | .floatK => .floatV (.finite 0 0)

/-- `reflect.New(a.Elem())`: a fresh zero value of the struct type. -/
def zeroStruct (d : StructDesc) : StructVal := d.fields.map (fun fd => zeroField fd.kind)

/-- A value inhabits a kind, with Go's 64-bit ranges. -/
def fieldTyped : FieldKind → FieldVal → Bool
  | .str, .str _ => true
  | .boolK, .boolV _ => true
  | .intK, .intV i => decide (-(2 ^ 63 : Int) ≤ i ∧ i < 2 ^ 63)
  | .uintK, .uintV n => decide (n < 2 ^ 64)
  | .floatK, .floatV _ => true
  | _, _ => false

def structTyped (d : StructDesc) (v : StructVal) : Bool :=
  v.length = d.fields.length &&
    (d.fields.zip v).all (fun p => fieldTyped p.1.kind p.2)

/-- No non-finite float anywhere in the value (what `json.Marshal`
requires of `float64` fields). -/
def fieldFinite : FieldVal → Bool
  | .floatV (.inf _) => false
  | .floatV .nan => false
  | _ => true

/-! ## strconv (the exact parsers the coercion switch calls) -/

/-- `strconv.ParseBool`. -/
def goParseBool (s : String) : Option Bool :=
  if s = "1" ∨ s = "t" ∨ s = "T" ∨ s = "TRUE" ∨ s = "true" ∨ s = "True" then some true
  else if s = "0" ∨ s = "f" ∨ s = "F" ∨ s = "FALSE" ∨ s = "false" ∨ s = "False" then
    some false
  else none

def lowerC (c : Char) : Char :=
  if 'A' ≤ c ∧ c ≤ 'Z' then Char.ofNat (c.toNat + 32) else c

/-- Digit admissible for strconv's underscore scan (decimal always, the
hex letters when scanning a hex literal). -/
def uscoreDigit (hex : Bool) (c : Char) : Bool :=
  ('0' ≤ c ∧ c ≤ '9') ∨ (hex ∧ 'a' ≤ lowerC c ∧ lowerC c ≤ 'f')

/-- Core of `strconv.underscoreOK`: `saw` is `'^'` at the start of the
number part, `'0'` after a digit or base prefix, `'_'` after an
underscore, `'!'` after anything else. -/
def underscoreOKAux (hex : Bool) : Char → List Char → Bool
  | saw, [] => saw ≠ '_'
  | saw, c :: cs =>
      if uscoreDigit hex c then underscoreOKAux hex '0' cs
      else if c = '_' then saw = '0' && underscoreOKAux hex '_' cs
      else if saw = '_' then false
      else underscoreOKAux hex '!' cs

/-- `strconv.underscoreOK`: underscores only between a base prefix or
digit and a digit. -/
def underscoreOK (s : List Char) : Bool :=
  let s1 := match s with
    | c :: cs => if c = '-' ∨ c = '+' then cs else s
    | [] => s
  match s1 with
  | c0 :: c1 :: rest =>
      if c0 = '0' ∧ (lowerC c1 = 'b' ∨ lowerC c1 = 'o' ∨ lowerC c1 = 'x') then
        underscoreOKAux (lowerC c1 = 'x') '0' rest
      else underscoreOKAux false '^' s1
  | _ => underscoreOKAux false '^' s1

/-- Value of one alphanumeric digit character, any base up to 36. -/
def alnumVal (c : Char) : Option Nat :=
  if '0' ≤ c ∧ c ≤ '9' then some (c.toNat - 48)
  else if 'a' ≤ lowerC c ∧ lowerC c ≤ 'z' then some ((lowerC c).toNat - 87)
  else none

/-- The digit loop of `strconv.ParseUint`: underscores skipped when the
caller used base 0, overflow beyond `2^64 - 1` is an error. -/
def parseUintDigits (base0 : Bool) (base : Nat) : List Char → Nat → Bool → Option (Nat × Bool)
  | [], n, sawU => some (n, sawU)
  | c :: cs, n, sawU =>
      if c = '_' ∧ base0 then parseUintDigits base0 base cs n true
      else match alnumVal c with
        | none => none
        | some d =>
            if d ≥ base then none
            else
              let n1 := n * base + d
              if n1 > 2 ^ 64 - 1 then none
              else parseUintDigits base0 base cs n1 sawU

/-- `strconv.ParseUint(s, 0, 64)` on an already sign-free body `s0`
(base detection from the `0x`/`0o`/`0b`/`0` prefixes, underscore
legality checked against the original spelling `orig`). -/
def goParseUintCore (orig : List Char) (s0 : List Char) : Option Nat :=
  match s0 with
  | [] => none
  | _ =>
      let (base, body) : Nat × List Char :=
        match s0 with
        | '0' :: c1 :: rest =>
            if lowerC c1 = 'b' ∧ rest ≠ [] then (2, rest)
            else if lowerC c1 = 'o' ∧ rest ≠ [] then (8, rest)
            else if lowerC c1 = 'x' ∧ rest ≠ [] then (16, rest)
            else (8, c1 :: rest)
        | '0' :: [] => (8, [])
        | other => (10, other)
      match parseUintDigits true base body 0 false with
      | none => none
      | some (n, sawU) => if sawU ∧ ¬underscoreOK orig then none else some n

/-- `strconv.ParseUint(s, 0, 64)`: no sign allowed. -/
def goParseUint (s : String) : Option Nat :=
  match s.data with
  | '+' :: _ => none
  | '-' :: _ => none
  | body => goParseUintCore s.data body

/-- `strconv.ParseInt(s, 0, 64)`: optional sign, then the unsigned
parse, then the `int64` range check. -/
def goParseInt (s : String) : Option Int :=
  match s.data with
  | [] => none
  | c :: cs =>
      let neg := c = '-'
      let body := if c = '-' ∨ c = '+' then cs else c :: cs
      match goParseUintCore s.data body with
      | none => none
      | some un =>
          if ¬neg ∧ un ≥ 2 ^ 63 then none
          else if neg ∧ un > 2 ^ 63 then none
          else some (if neg then -(un : Int) else (un : Int))

/-! ## encoding/json: documents, rendering, scanning -/

/-- A JSON document.  Numbers are exact decimals: `num m e` denotes
`m / 10^e` (see the float note in the header). -/
inductive Json
  | null
  | boolJ (b : Bool)
  | num (m : Int) (e : Nat)
  | str (s : String)
  | arr (elems : List Json)
  | obj (mems : List (String × Json))

def digitChar (d : Nat) : Char := Char.ofNat (48 + d)

def charDigit (c : Char) : Nat := c.toNat - 48

def isDigitC (c : Char) : Bool := 48 ≤ c.toNat ∧ c.toNat ≤ 57

/-- Decimal digits of `n`, most significant first. -/
def natChars (n : Nat) : List Char :=
  if n = 0 then ['0'] else ((Nat.digits 10 n).map digitChar).reverse

def intChars (i : Int) : List Char :=
  if i < 0 then '-' :: natChars i.natAbs else natChars i.natAbs

/-- `r` rendered as exactly `e` digits, zero-padded on the left
(requires `r < 10^e`). -/
def padDigits (e : Nat) (r : Nat) : List Char :=
  let ds := natChars r
  List.replicate (e - ds.length) '0' ++ ds

/-- The text of the number `m / 10^e`, the way `encoding/json` prints
the corresponding value: plain decimal digits, a fraction point exactly
when `e > 0`, never an exponent. -/
def numChars (m : Int) (e : Nat) : List Char :=
  if e = 0 then intChars m
  else
    (if m < 0 then ['-'] else []) ++
      natChars (m.natAbs / 10 ^ e) ++ '.' :: padDigits e (m.natAbs % 10 ^ e)

/-- The digits of `numChars` without the sign. -/
def numCharsU (a : Nat) (e : Nat) : List Char :=
  if e = 0 then natChars a
  else natChars (a / 10 ^ e) ++ '.' :: padDigits e (a % 10 ^ e)

def hexLower (n : Nat) : Char :=
  if n < 10 then Char.ofNat (48 + n) else Char.ofNat (87 + n)

/-- `\u00XX`-style escape of a code point below `0x10000`. -/
def escU (n : Nat) : List Char :=
  ['\\', 'u', hexLower (n / 4096 % 16), hexLower (n / 256 % 16),
   hexLower (n / 16 % 16), hexLower (n % 16)]

/-- One character of string content, escaped as Go's encoder writes it
(HTML-safe escaping of `<`, `>`, `&` is the encoder's default). -/
def escChar (c : Char) : List Char :=
  if c = '"' then ['\\', '"']
  else if c = '\\' then ['\\', '\\']
  else if c = '\n' then ['\\', 'n']
  else if c = '\r' then ['\\', 'r']
  else if c = '\t' then ['\\', 't']
  else if c.toNat < 32 then escU c.toNat
  else if c = '<' ∨ c = '>' ∨ c = '&' then escU c.toNat
  else if c.toNat = 0x2028 ∨ c.toNat = 0x2029 then escU c.toNat
  else [c]

def strChars (s : String) : List Char := '"' :: s.data.flatMap escChar ++ ['"']

mutual

/-- The compact text of a document, exactly as `json.Marshal` writes
it. -/
def renderJson : Json → List Char
  | .null => ['n', 'u', 'l', 'l']
  | .boolJ true => ['t', 'r', 'u', 'e']
  | .boolJ false => ['f', 'a', 'l', 's', 'e']
  | .num m e => numChars m e
  | .str s => strChars s
  | .arr xs => '[' :: renderElems xs ++ [']']
  | .obj ms => '{' :: renderMems ms ++ ['}']

def renderElems : List Json → List Char
  | [] => []
  | [x] => renderJson x
  | x :: y :: xs => renderJson x ++ ',' :: renderElems (y :: xs)

def renderMems : List (String × Json) → List Char
  | [] => []
  | [(k, v)] => strChars k ++ ':' :: renderJson v
  | (k, v) :: m :: ms => strChars k ++ ':' :: renderJson v ++ ',' :: renderMems (m :: ms)

end

def nlIndent (ind : List Char) (depth : Nat) : List Char :=
  '\x0a' :: (List.replicate depth ind).flatten

mutual

/-- The text `json.Indent(dst, src, "", ind)` produces from the compact
text of a document: every member or element on its own line, `ind`
repeated per nesting level, `": "` after object keys, empty composites
kept compact. -/
def renderJsonInd (ind : List Char) (depth : Nat) : Json → List Char
  | .arr [] => ['[', ']']
  | .obj [] => ['{', '}']
  | .arr (x :: xs) =>
      '[' :: nlIndent ind (depth + 1) ++ renderElemsInd ind (depth + 1) (x :: xs) ++
        nlIndent ind depth ++ [']']
  | .obj (m :: ms) =>
      '{' :: nlIndent ind (depth + 1) ++ renderMemsInd ind (depth + 1) (m :: ms) ++
        nlIndent ind depth ++ ['}']
  | j => renderJson j

def renderElemsInd (ind : List Char) (depth : Nat) : List Json → List Char
  | [] => []
  | [x] => renderJsonInd ind depth x
  | x :: y :: xs =>
      renderJsonInd ind depth x ++ ',' :: nlIndent ind depth ++
        renderElemsInd ind depth (y :: xs)

def renderMemsInd (ind : List Char) (depth : Nat) : List (String × Json) → List Char
  | [] => []
  | [(k, v)] => strChars k ++ ':' :: ' ' :: renderJsonInd ind depth v
  | (k, v) :: m :: ms =>
      strChars k ++ ':' :: ' ' :: renderJsonInd ind depth v ++ ',' :: nlIndent ind depth ++
        renderMemsInd ind depth (m :: ms)

end

def isWs (c : Char) : Bool := c = ' ' ∨ c = '\t' ∨ c = '\n' ∨ c = '\r'

def skipWs (s : List Char) : List Char := s.dropWhile isWs

/-- Content of a string literal after the opening quote; returns the
unescaped characters and the input after the closing quote. -/
def parseStrBody : List Char → Option (List Char × List Char)
  | [] => none
  | '\\' :: 'u' :: c1 :: c2 :: c3 :: c4 :: cs3 =>
      match hexVal c1, hexVal c2, hexVal c3, hexVal c4 with
      | some h1, some h2, some h3, some h4 =>
          (parseStrBody cs3).map
            (fun r => (Char.ofNat (((h1 * 16 + h2) * 16 + h3) * 16 + h4) :: r.1, r.2))
      | _, _, _, _ => none
  | '\\' :: e :: cs2 =>
      match
        (if e = '"' then some '"'
         else if e = '\\' then some '\\'
         else if e = '/' then some '/'
         else if e = 'b' then some '\x08'
         else if e = 'f' then some '\x0c'
         else if e = 'n' then some '\x0a'
         else if e = 'r' then some '\x0d'
         else if e = 't' then some '\x09'
         else none) with
      | some d => (parseStrBody cs2).map (fun r => (d :: r.1, r.2))
      | none => none
  | ['\\'] => none
  | c :: cs =>
      if c = '"' then some ([], cs)
      else (parseStrBody cs).map (fun r => (c :: r.1, r.2))

/-- Longest digit run at the front. -/
def spanDigits : List Char → List Char × List Char
  | [] => ([], [])
  | c :: cs =>
      if isDigitC c then
        let r := spanDigits cs
        (c :: r.1, r.2)
      else ([], c :: cs)

def digitsVal (ds : List Char) : Nat := ds.foldl (fun a c => a * 10 + charDigit c) 0

/-- The digits of a JSON number after its optional sign: integer part
without leading zeros, optional fraction, optional exponent; the value
is normalised to `(m, e)` with `m / 10^e` the denoted decimal. -/
def parseNumCore (neg : Bool) (s1 : List Char) : Option ((Int × Nat) × List Char) :=
  match spanDigits s1 with
  | ([], _) => none
  | (ip, r1) =>
      if ip.length > 1 ∧ ip.head? = some '0' then none
      else
        let fracStep : Option (List Char × List Char) :=
          if r1.head? = some '.' then
            match spanDigits r1.tail with
            | ([], _) => none
            | (fp, r2) => some (fp, r2)
          else some ([], r1)
        match fracStep with
        | none => none
        | some (fp, r2) =>
            let expStep : Option (Int × List Char) :=
              if r2.head? = some 'e' ∨ r2.head? = some 'E' then
                let t := r2.tail
                let eneg : Bool := t.head? = some '-'
                let t1 := if t.head? = some '-' ∨ t.head? = some '+' then t.tail else t
                match spanDigits t1 with
                | ([], _) => none
                | (ep, r3) =>
                    some ((if eneg then -(digitsVal ep : Int) else (digitsVal ep : Int)), r3)
              else some (0, r2)
            match expStep with
            | none => none
            | some (k, r3) =>
                let m0 : Nat := digitsVal (ip ++ fp)
                let e0 : Nat := fp.length
                let mA : Nat × Nat :=
                  if 0 ≤ k then
                    if k.toNat ≤ e0 then (m0, e0 - k.toNat)
                    else (m0 * 10 ^ (k.toNat - e0), 0)
                  else (m0, e0 + k.natAbs)
                some (((if neg then -(mA.1 : Int) else (mA.1 : Int)), mA.2), r3)

/-- A JSON number: optional minus sign, then the digits. -/
def parseNumBody (s : List Char) : Option ((Int × Nat) × List Char) :=
  let neg : Bool := s.head? = some '-'
  parseNumCore neg (if neg then s.tail else s)

mutual

/-- One scan of a JSON value (`fuel` bounds the recursion depth; the
entry point hands it more fuel than any input can consume). -/
def parseVal : Nat → List Char → Option (Json × List Char)
  | 0, _ => none
  | fuel + 1, s =>
      match skipWs s with
      | [] => none
      | c :: t =>
          if c = '{' then
            match skipWs t with
            | '}' :: r => some (.obj [], r)
            | t1 => (parseMems1 fuel t1).map (fun r => (.obj r.1, r.2))
          else if c = '[' then
            match skipWs t with
            | ']' :: r => some (.arr [], r)
            | t1 => (parseElems1 fuel t1).map (fun r => (.arr r.1, r.2))
          else if c = '"' then
            (parseStrBody t).map (fun r => (.str ⟨r.1⟩, r.2))
          else if c = 't' then
            match t with
            | 'r' :: 'u' :: 'e' :: r => some (.boolJ true, r)
            | _ => none
          else if c = 'f' then
            match t with
            | 'a' :: 'l' :: 's' :: 'e' :: r => some (.boolJ false, r)
            | _ => none
          else if c = 'n' then
            match t with
            | 'u' :: 'l' :: 'l' :: r => some (.null, r)
            | _ => none
          else if c = '-' ∨ isDigitC c then
            (parseNumBody (c :: t)).map (fun r => (.num r.1.1 r.1.2, r.2))
          else none

/-- Members of a non-empty object, the input starting at the first
member's opening quote. -/
def parseMems1 : Nat → List Char → Option (List (String × Json) × List Char)
  | 0, _ => none
  | fuel + 1, s =>
      match s with
      | '"' :: t =>
          match parseStrBody t with
          | none => none
          | some (key, r1) =>
              match skipWs r1 with
              | ':' :: r2 =>
                  match parseVal fuel r2 with
                  | none => none
                  | some (v, r3) =>
                      match skipWs r3 with
                      | ',' :: r4 =>
                          (parseMems1 fuel (skipWs r4)).map
                            (fun r => ((⟨key⟩, v) :: r.1, r.2))
                      | '}' :: r4 => some ([(⟨key⟩, v)], r4)
                      | _ => none
              | _ => none
      | _ => none

/-- Elements of a non-empty array, the input starting at the first
element. -/
def parseElems1 : Nat → List Char → Option (List Json × List Char)
  | 0, _ => none
  | fuel + 1, s =>
      match parseVal fuel s with
      | none => none
      | some (v, r1) =>
          match skipWs r1 with
          | ',' :: r2 => (parseElems1 fuel r2).map (fun r => (v :: r.1, r.2))
          | ']' :: r2 => some ([v], r2)
          | _ => none

end

/-- `json.Unmarshal`'s scan of a complete document: one value and
nothing but whitespace after it. -/
def parseJsonText (s : String) : Option Json :=
  match parseVal (s.length + 2) s.data with
  | some (j, rest) => if skipWs rest = [] then some j else none
  | none => none

/-! ## encoding/json: struct encoding and decoding -/

def marshalField : FieldVal → Except String Json
  | .str s => .ok (.str s)
  | .boolV b => .ok (.boolJ b)
  | .intV i => .ok (.num i 0)
  | .uintV n => .ok (.num n 0)
  | .floatV (.finite m e) => .ok (.num m e)
  | .floatV (.inf neg) =>
      .error (if neg then "json: unsupported value: -Inf" else "json: unsupported value: +Inf")
  | .floatV .nan => .error "json: unsupported value: NaN"

/-- The members `json.Marshal` emits for a struct: the exported fields
without the ignore tag, in declaration order.  (The length-mismatch
branch is plumbing: reflection guarantees a value per field.) -/
def marshalFields : List FieldDesc → List FieldVal → Except String (List (String × Json))
  | [], [] => .ok []
  | fd :: fds, fv :: fvs =>
      if fd.canSet ∧ ¬fd.jsonIgnore then do
        let j ← marshalField fv
        let rest ← marshalFields fds fvs
        .ok ((fd.name, j) :: rest)
      else marshalFields fds fvs
  | _, _ => .error "json: field count mismatch"

def marshalStruct (d : StructDesc) (v : StructVal) : Except String Json :=
  (marshalFields d.fields v).map Json.obj

def strEqCI (a b : String) : Bool := a.data.map lowerC = b.data.map lowerC

def findIdxFrom (p : FieldDesc → Bool) : Nat → List FieldDesc → Option Nat
  | _, [] => none
  | n, fd :: rest => if p fd then some n else findIdxFrom p (n + 1) rest

/-- The field a JSON object key selects: exported, not ignore-tagged,
exact name match preferred, else case-insensitive match (Go uses
`EqualFold`; simple lower-casing models it for the names that occur). -/
def findFieldIdx (d : StructDesc) (k : String) : Option Nat :=
  match findIdxFrom (fun fd => fd.canSet && !fd.jsonIgnore && fd.name = k) 0 d.fields with
  | some i => some i
  | none => findIdxFrom (fun fd => fd.canSet && !fd.jsonIgnore && strEqCI fd.name k) 0 d.fields

/-- Decoding one JSON value into a field of the given kind.  JSON `null`
leaves the field untouched; numbers must be integral and in range for
the integer kinds. -/
def fieldFromJson (k : FieldKind) (cur : FieldVal) (j : Json) : Except String FieldVal :=
  match j with
  | .null => .ok cur
  | .str s =>
      match k with
      | .str => .ok (.str s)
      | _ => .error "json: cannot unmarshal string into Go struct field"
  | .boolJ b =>
      match k with
      | .boolK => .ok (.boolV b)
      | _ => .error "json: cannot unmarshal bool into Go struct field"
  | .num m e =>
      match k with
      | .intK =>
          if e = 0 ∧ -(2 ^ 63 : Int) ≤ m ∧ m < 2 ^ 63 then .ok (.intV m)
          else .error "json: cannot unmarshal number into Go struct field of int kind"
      | .uintK =>
          if e = 0 ∧ 0 ≤ m ∧ m < 2 ^ 64 then .ok (.uintV m.toNat)
          else .error "json: cannot unmarshal number into Go struct field of uint kind"
      | .floatK => .ok (.floatV (.finite m e))
      | _ => .error "json: cannot unmarshal number into Go struct field"
  | .arr _ => .error "json: cannot unmarshal array into Go struct field"
  | .obj _ => .error "json: cannot unmarshal object into Go struct field"

/-- Process one object member: unknown keys are skipped silently, known
keys decode into their field.  (The two `none` fallbacks are plumbing:
`findFieldIdx` only returns indices below the field count, and the
accumulator always has that length.) -/
def applyMem (d : StructDesc) (acc : StructVal) (m : String × Json) : Except String StructVal :=
  match findFieldIdx d m.1 with
  | none => .ok acc
  | some i =>
      match d.fields[i]?, acc[i]? with
      | some fd, some cur => (fieldFromJson fd.kind cur m.2).map (fun fv => acc.set i fv)
      | _, _ => .error "json: internal field index out of range"

/-- `json.Unmarshal` of a document into a fresh zero struct value. -/
def unmarshalStruct (d : StructDesc) (j : Json) : Except String StructVal :=
  match j with
  | .obj mems => mems.foldlM (applyMem d) (zeroStruct d)
  | .null => .ok (zeroStruct d)
  | _ => .error "json: cannot unmarshal value into Go value of struct type"

/-- `json.Unmarshal` of raw text into a fresh zero struct value. -/
def jsonUnmarshalText (d : StructDesc) (s : String) : Except String StructVal :=
  match parseJsonText s with
  | some j => unmarshalStruct d j
  | none => .error "unexpected end of JSON input"

/-! ## External primitives no claim depends on -/

/-- `strconv.ParseFloat`, `encoding/xml.Unmarshal` and
`http.DetectContentType` as opaque-but-total parameters: every theorem
below holds for an arbitrary `Ext`, so in particular for the real
library functions. -/
structure Ext where
  parseFloat : String → Option GoFloat
  xmlUnmarshal : StructDesc → String → Except String StructVal
  detectContentType : String → String

/-- One concrete instance, used only to evaluate statements that are
proved for every `Ext` at a specific input. -/
def extDefault : Ext where
  parseFloat := fun s => (goParseInt s).map (fun i => .finite i 0)
  xmlUnmarshal := fun _ _ => .error "xml: unsupported"
  detectContentType := fun _ => "text/plain; charset=utf-8"

/-! ## Form coercion into a struct (the urlencoded POST path) -/

def fieldByName (d : StructDesc) (k : String) : Option Nat :=
  findIdxFrom (fun fd => fd.name = k) 0 d.fields

/-- One iteration of the form loop of `HandlePOST`: look the key up with
`FieldByName`, skip it unless the field is settable, then the kind
switch with the parse-or-skip coercions on the first value. -/
def coerceEntry (ext : Ext) (d : StructDesc) (acc : StructVal) (e : String × List String) :
    StructVal :=
  match fieldByName d e.1 with
  | none => acc
  | some i =>
      match d.fields[i]? with
      | none => acc
      | some fd =>
          if ¬fd.canSet then acc
          else
            let v0 := e.2.headD ""
            match fd.kind with
            | .str => acc.set i (.str v0)
            | .boolK =>
                match goParseBool v0 with
                | some b => acc.set i (.boolV b)
                | none => acc
            | .floatK =>
                match ext.parseFloat v0 with
                | some x => acc.set i (.floatV x)
                | none => acc
            | .intK =>
                match goParseInt v0 with
                | some n => acc.set i (.intV n)
                | none => acc
            | .uintK =>
                match goParseUint v0 with
                | some n => acc.set i (.uintV n)
                | none => acc

def coerceForm (ext : Ext) (d : StructDesc) (form : Form) : StructVal :=
  form.foldl (coerceEntry ext d) (zeroStruct d)

/-! ## net/http: requests, responses, form parsing, the mux -/

structure Request where
  method : String
  rawQuery : String
  /-- The full `Content-Type` header value. -/
  contentType : String
  rawBody : String
  /-- The file parts a multipart body encodes, by part name. -/
  parts : List (String × String)
  deriving DecidableEq, Repr

structure Response where
  status : Nat
  contentType : String
  body : String
  deriving DecidableEq, Repr

/-- The package's global configuration (`IndentJSON`,
`DontCheckRequestMethod`), read at request time. -/
structure Config where
  indentJSON : String
  dontCheckRequestMethod : Bool
  deriving DecidableEq, Repr

/-- `request.ParseForm` for the requests the POST binder passes it: the
body is decoded only for a form-writing method carrying the urlencoded
content type (an absent type counts as `application/octet-stream`, so
its body is ignored); the URL query values are appended after the body
values. -/
def goParseForm (req : Request) : Form :=
  let bodyPairs :=
    if (req.method = "POST" ∨ req.method = "PUT" ∨ req.method = "PATCH")
        ∧ req.contentType = "application/x-www-form-urlencoded"
    then parseQueryPairs req.rawBody
    else []
  formOfPairs (bodyPairs ++ parseQueryPairs req.rawQuery)

def trimSpacesL (s : List Char) : List Char := s.dropWhile (· = ' ')

/-- The `boundary` parameter of a media-type header value. -/
def extractBoundary (ct : String) : Option String :=
  ((splitOnChar ';' ct.data).drop 1).findSome? fun piece =>
    let p := trimSpacesL piece
    if p.take 9 = "boundary=".data then some ⟨p.drop 9⟩ else none

/-- `request.FormFile`: parses the multipart body (which requires a
`boundary` parameter in the Content-Type header) and returns the named
file part's content. -/
def formFile (req : Request) (name : String) : Except String String :=
  match extractBoundary req.contentType with
  | none => .error "no multipart boundary param in Content-Type"
  | some _ =>
      match List.lookup name req.parts with
      | some content => .ok content
      | none => .error "http: no such file"

/-- `http.Error`: status code, `text/plain` content type, the message
followed by the newline `fmt.Fprintln` appends. -/
def httpError (msg : String) (code : Nat) : Response :=
  { status := code, contentType := "text/plain; charset=utf-8", body := msg ++ "\x0a" }

def writeError (msg : String) : Response := httpError msg 500

/-! ## The dispatch core (server.go) -/

inductive TypeRep
  | urlValues
  | structPtr (d : StructDesc)
  | structTy (d : StructDesc)
  | stringTy
  | errorTy
  | otherTy (name : String)
  deriving DecidableEq, Repr

/-- A dynamically-typed value (`reflect.Value`). -/
inductive RVal
  | structV (v : StructVal)
  | structPtrV (v : Option StructVal)
  | strV (s : String)
  | errV (e : Option String)
  | formV (f : Form)
  deriving DecidableEq, Repr

/-- `a.Kind() == reflect.Ptr && a.Elem().Kind() == reflect.Struct`. -/
def isStructPtrT : TypeRep → Bool
  | .structPtr _ => true
  | _ => false

abbrev ReflectFn := List RVal → List RVal

/-- A Go function value as reflection sees it: parameter types, result
types, and the behaviour. -/
structure FuncVal where
  params : List TypeRep
  results : List TypeRep
  call : ReflectFn

/-- A registration-time `interface{}` argument. -/
inductive GoVal
  | func (f : FuncVal)
  | nonFunc (typeName : String)

inductive ObjArg
  | ptrObj (v : RVal)
  | nonPtr (typeName : String)

/-- A Go slice write `xs[i] = x`, failing out of range. -/
def listSet? (xs : List (Option TypeRep)) (i : Nat) (x : Option TypeRep) :
    Option (List (Option TypeRep)) :=
  if i < xs.length then some (xs.set i x) else none

/-- The loop `for i := 1; i < handlerType.NumIn(); i++ { in[i] =
handlerType.In(i) }` over the freshly made slice, exactly as written:
the write index starts at 1 and runs to `NumIn()-1` although the slice
has length `NumIn()-1`.  The loop runs `params.length - i` times, which
the remaining-iteration counter makes structural. -/
def fillLoopAux (params : List TypeRep) : Nat → Nat → List (Option TypeRep) →
    Except String (List (Option TypeRep))
  | 0, _, acc => .ok acc
  | n + 1, i, acc =>
      match params.get? i with
      | none => .ok acc
      | some t =>
          match listSet? acc i (some t) with
          | none => .error "runtime error: index out of range"
          | some acc2 => fillLoopAux params n (i + 1) acc2

def fillLoop (params : List TypeRep) (i : Nat) (acc : List (Option TypeRep)) :
    Except String (List (Option TypeRep)) :=
  fillLoopAux params (params.length - i) i acc

/-- `getHandlerFunc`: the visible parameter list (entries still optional
because a freshly made slice holds nil types until written) and the call
wrapper, which prepends the bound object when one is supplied. -/
def getHandlerFunc (handler : GoVal) (object : List ObjArg) :
    Except String (ReflectFn × List (Option TypeRep) × List TypeRep) :=
  match handler with
  | .nonFunc t => .error ("handler must be a function, got " ++ t)
  | .func fv =>
      match object with
      | [] => .ok (fv.call, fv.params.map some, fv.results)
      | [obj] =>
          match obj with
          | .nonPtr t => .error ("object must be a pointer, got " ++ t)
          | .ptrObj ov =>
              let f : ReflectFn := fun args => fv.call (ov :: args)
              if fv.params.length = 0 then
                .error "runtime error: makeslice: len out of range"
              else
                (fillLoop fv.params 1 (List.replicate (fv.params.length - 1) none)).map
                  (fun inTys => (f, inTys, fv.results))
      | _ => .error "HandleGET(): only zero or one object allowed"

/-- The error value carried at result position 1, when the handler
declares one and it is non-nil (`!result[1].IsNil()`). -/
def errOf (result : List RVal) : Option String :=
  match result.get? 1 with
  | some (.errV (some msg)) => some msg
  | _ => none

/-- `json.Marshal` of the first result value: a struct directly, a
struct pointer through `null` when nil.  (The catch-all is unreachable
for results that inhabit their declared type.) -/
def marshalTop (d : StructDesc) : RVal → Except String Json
  | .structV v => marshalStruct d v
  | .structPtrV none => .ok .null
  | .structPtrV (some v) => marshalStruct d v
  | _ => .error "json: unsupported type"

/-- The serializer for a given first result type (`checkErr` says a
trailing error result exists and must be inspected first). -/
def firstResult (ext : Ext) (t1 : TypeRep) (checkErr : Bool) :
    Except String (Config → List RVal → Response) :=
  match t1 with
  | .structTy d | .structPtr d =>
      .ok (fun cfg result =>
        match checkErr, errOf result with
        | true, some msg => writeError msg
        | _, _ =>
            match marshalTop d (result.headD (.errV none)) with
            | .error emsg => writeError emsg
            | .ok j =>
                let body :=
                  if cfg.indentJSON = "" then String.mk (renderJson j)
                  else String.mk (renderJsonInd cfg.indentJSON.data 0 j)
                { status := 200, contentType := "application/json", body := body })
  | .stringTy =>
      .ok (fun _ result =>
        match checkErr, errOf result with
        | true, some msg => writeError msg
        | _, _ =>
            let s := match result.headD (.strV "") with
              | .strV s => s
              | _ => ""
            { status := 200, contentType := ext.detectContentType s, body := s })
  | _ => .error "first result value of handler must be of type string or struct(pointer)"

/-- `writeResultFunc`: classify the result types once, produce the
response writer. -/
def writeResultFunc (ext : Ext) (out : List TypeRep) :
    Except String (Config → List RVal → Response) :=
  match out with
  | [] => .ok (fun _ _ => { status := 200, contentType := "", body := "" })
  | [t1] => firstResult ext t1 false
  | [t1, t2] =>
      if t2 = .errorTy then firstResult ext t1 true
      else .error "HandleGET(): second result value of handle must be of type error"
  | _ => .error "zero to two return values allowed"

/-- The urlencoded/absent-content-type branch for a struct-pointer
parameter: single-`JSON`-field decode, else the field coercion loop. -/
def bindFormStruct (ext : Ext) (d : StructDesc) (form : Form) : Except String StructVal :=
  if formNumKeys form = 1 ∧ formGet form "JSON" ≠ "" then
    jsonUnmarshalText d (formGet form "JSON")
  else .ok (coerceForm ext d form)

/-- The request-time argument getter `HandlePOST` installs, switching on
the exact Content-Type header value. -/
def postGetArgs (ext : Ext) (a : TypeRep) (req : Request) : Except String (List RVal) :=
  let ct := req.contentType
  if ct = "" ∨ ct = "application/x-www-form-urlencoded" then
    let form := goParseForm req
    if a = .urlValues then .ok [.formV form]
    else
      match a with
      | .structPtr d => (bindFormStruct ext d form).map (fun v => [.structPtrV (some v)])
      | _ => .error "reflect: Elem of invalid type"
  else if ct = "text/plain" then
    match a with
    | .stringTy => .ok [.strV req.rawBody]
    | _ =>
        .error "HandlePOST(): first handler argument must be a string when request Content-Type is text/plain"
  else if ct = "application/xml" then
    match a with
    | .structPtr d => (ext.xmlUnmarshal d req.rawBody).map (fun v => [.structPtrV (some v)])
    | _ =>
        .error "HandlePOST(): first handler argument must be a struct pointer when request Content-Type is application/xml"
  else if ct = "application/json" then
    match a with
    | .structPtr d => (jsonUnmarshalText d req.rawBody).map (fun v => [.structPtrV (some v)])
    | _ =>
        .error "HandlePOST(): first handler argument must be a struct pointer when request Content-Type is application/json"
  else if ct = "multipart/form-data" then
    match a with
    | .structPtr d =>
        match formFile req "JSON" with
        | .error e => .error e
        | .ok _file =>
            -- The source reads request.Body at this point, not the file
            -- just obtained; the multipart parse inside FormFile has
            -- already consumed the body, so the read yields no bytes.
            (jsonUnmarshalText d "").map (fun v => [.structPtrV (some v)])
    | _ =>
        .error "HandlePOST(): first handler argument must be a struct pointer when request Content-Type is multipart/form-data"
  else .error ("Unsupported POST Content-Type: " ++ ct)

/-- A registered handler (`httpHandler`). -/
structure Route where
  method : String
  getArgs : Request → Except String (List RVal)
  handlerFunc : ReflectFn
  writeResult : Config → List RVal → Response

/-- `http.DefaultServeMux`'s pattern table. -/
abbrev Registry := List (String × Route)

def lookupRoute (reg : Registry) (path : String) : Option Route := List.lookup path reg

/-- `http.Handle` on the default mux: registering an already-registered
pattern is a panic, not an overwrite. -/
def muxHandle (reg : Registry) (path : String) (r : Route) : Except String Registry :=
  if path = "" then .error "http: invalid pattern"
  else if (lookupRoute reg path).isSome then
    .error ("http: multiple registrations for " ++ path)
  else .ok (reg ++ [(path, r)])

/-- `HandleGET`: classify, install the query-values getter, build the
serializer, register. -/
def HandleGET (ext : Ext) (reg : Registry) (path : String) (handler : GoVal)
    (object : List ObjArg) : Except String Registry :=
  match getHandlerFunc handler object with
  | .error e => .error e
  | .ok (f, inTys, outTys) =>
      let getArgsE : Except String (Request → Except String (List RVal)) :=
        match inTys with
        | [] => .ok (fun _ => .ok [])
        | [a] =>
            if a = some .urlValues then
              .ok (fun req => .ok [.formV (parseQuery req.rawQuery)])
            else .error "HandleGET(): handler argument must be url.Values"
        | _ => .error "HandleGET(): handler accepts zero or one arguments"
      match getArgsE with
      | .error e => .error e
      | .ok getArgs =>
          match writeResultFunc ext outTys with
          | .error e => .error e
          | .ok wr =>
              muxHandle reg path
                { method := "GET", getArgs := getArgs, handlerFunc := f, writeResult := wr }

/-- `HandlePOST`: classify (struct pointer, string or url.Values),
install the content-type-switching getter, register.  (The nil-type
middle branch is plumbing: `getHandlerFunc` never delivers a
single-element list holding a nil type.) -/
def HandlePOST (ext : Ext) (reg : Registry) (path : String) (handler : GoVal)
    (object : List ObjArg) : Except String Registry :=
  match getHandlerFunc handler object with
  | .error e => .error e
  | .ok (f, inTys, outTys) =>
      let aE : Except String TypeRep :=
        match inTys with
        | [some a] =>
            if a = .urlValues ∨ isStructPtrT a ∨ a = .stringTy then
              .ok a
            else
              .error "HandlePOST(): first handler argument must be a struct pointer, string, or url.Values"
        | [none] =>
            .error "HandlePOST(): first handler argument must be a struct pointer, string, or url.Values"
        | _ => .error "HandlePOST(): handler accepts only one or thwo arguments"
      match aE with
      | .error e => .error e
      | .ok a =>
          match writeResultFunc ext outTys with
          | .error e => .error e
          | .ok wr =>
              muxHandle reg path
                { method := "POST", getArgs := postGetArgs ext a, handlerFunc := f,
                  writeResult := wr }

/-- `httpHandler.ServeHTTP`: the method gate, then bind, invoke,
serialize.  A `.error` is a panic escaping the handler. -/
def serveHTTP (cfg : Config) (h : Route) (req : Request) : Except String Response :=
  if ¬cfg.dontCheckRequestMethod ∧ req.method ≠ h.method then
    .ok (httpError "405: Method Not Allowed" 405)
  else
    (h.getArgs req).map (fun args => h.writeResult cfg (h.handlerFunc args))

/-- What the connection sees: `net/http`'s per-connection recovery turns
a panic escaping `ServeHTTP` into an aborted connection with no response
written; the process and other requests continue. -/
inductive ConnOutcome
  | response (r : Response)
  | aborted (panicMsg : String)
  deriving DecidableEq, Repr

def serveConn (cfg : Config) (h : Route) (req : Request) : ConnOutcome :=
  match serveHTTP cfg h req with
  | .ok r => .response r
  | .error m => .aborted m

/-! ## Round-trip vocabulary (claim C9) -/

/-- What decoding the marshalled image of `v` yields: the marshalled
fields (exported, not ignore-tagged) keep their value, every other
field decodes to its zero value. -/
def decodedImage (d : StructDesc) (v : StructVal) : StructVal :=
  (d.fields.zip v).map
    (fun p => if p.1.canSet ∧ ¬p.1.jsonIgnore then p.2 else zeroField p.1.kind)

/-- Documents without nesting: what a scalar field marshals to. -/
def scalarJson : Json → Bool
  | .null => true
  | .boolJ _ => true
  | .num _ _ => true
  | .str _ => true
  | _ => false

/-- The character after a rendered number may not extend it. -/
def numStop : List Char → Bool
  | [] => true
  | c :: _ => ¬isDigitC c ∧ c ≠ '.' ∧ c ≠ 'e' ∧ c ≠ 'E'

def structFinite (v : StructVal) : Bool := v.all fieldFinite

/-! ## The spec's per-field description of form coercion (claim C4)

The source walks the form and updates fields; the claim describes the
result field by field.  The next three definitions follow the claim's
words, to be compared with `coerceForm` from the source. -/

/-- What one form entry does to a field whose name it matches: nothing
when the field is not writable or the value fails its parse, else the
coerced first value. -/
def coerceAct (ext : Ext) (fd : FieldDesc) (vals : List String) : Option FieldVal :=
  if ¬fd.canSet then none
  else
    let v0 := vals.headD ""
    match fd.kind with
    | .str => some (.str v0)
    | .boolK => (goParseBool v0).map FieldVal.boolV
    | .floatK => (ext.parseFloat v0).map FieldVal.floatV
    | .intK => (goParseInt v0).map FieldVal.intV
    | .uintK => (goParseUint v0).map FieldVal.uintV

/-- The claim's description of one resulting field: the coercion of the
first value of the form entry with exactly the field's name, the zero
value when there is no such entry or the coercion is skipped. -/
def coercedField (ext : Ext) (form : Form) (fd : FieldDesc) : FieldVal :=
  match formLookup form fd.name with
  | none => zeroField fd.kind
  | some vals => (coerceAct ext fd vals).getD (zeroField fd.kind)

/-- The claim's description of the whole argument: field by field. -/
def coerceFormSpec (ext : Ext) (d : StructDesc) (form : Form) : StructVal :=
  d.fields.map (coercedField ext form)

/-! ## Concrete fixtures used by witnesses and counterexamples -/

/-- `struct { A int; B string }`. -/
def descAB : StructDesc :=
  ⟨[⟨"A", .intK, true, false⟩, ⟨"B", .str, true, false⟩]⟩

/-- `struct { A int; Ignore int json-dash }`. -/
def descIgn : StructDesc :=
  ⟨[⟨"A", .intK, true, false⟩, ⟨"Ignore", .intK, true, true⟩]⟩

/-- `struct { F float64 }`. -/
def descF : StructDesc := ⟨[⟨"F", .floatK, true, false⟩]⟩

def cfgZero : Config := ⟨"", false⟩

def valAB : StructVal := [.intV 1, .str "x"]

/-- `func() *AB`. -/
def fnGetAB : GoVal := .func ⟨[], [.structPtr descAB], fun _ => [.structPtrV (some valAB)]⟩

/-- `func() (*AB, error)` returning a non-nil error. -/
def fnGetErr : GoVal :=
  .func ⟨[], [.structPtr descAB, .errorTy], fun _ => [.structPtrV none, .errV (some "boom")]⟩

/-- `func() *F` returning `{F: +Inf}`. -/
def fnGetInf : GoVal :=
  .func ⟨[], [.structPtr descF], fun _ => [.structPtrV (some [.floatV (.inf false)])]⟩

/-- `func(*AB)`. -/
def fnPostAB : GoVal := .func ⟨[.structPtr descAB], [], fun _ => []⟩

/-- `func(string) string`. -/
def fnPostStr : GoVal := .func ⟨[.stringTy], [.stringTy], fun args => args⟩

/-- A method value with receiver and no visible parameter, echoing its
arguments. -/
def fnEcho : FuncVal := ⟨[.otherTy "recvT"], [], fun args => args⟩

/-- A method value with receiver and one visible `url.Values`
parameter. -/
def fnMeth1 : FuncVal := ⟨[.otherTy "recvT", .urlValues], [], fun _ => []⟩

def recvMarker : RVal := .strV "the-receiver"

def reqBadJson : Request := ⟨"POST", "", "application/json", "\x7b", []⟩

def reqMpPlain : Request := ⟨"POST", "", "multipart/form-data", "", [("JSON", "\x7b\"A\":1\x7d")]⟩

def reqMpBound : Request :=
  ⟨"POST", "", "multipart/form-data; boundary=x", "", [("JSON", "\x7b\"A\":1\x7d")]⟩

def reqTextPlain : Request := ⟨"POST", "", "text/plain", "hello", []⟩

def reqNoCT : Request := ⟨"POST", "B=5", "", "A=1", []⟩

def reqFormAB : Request := ⟨"POST", "", "application/x-www-form-urlencoded", "A=1&B=2", []⟩

def reqGETzero : Request := ⟨"GET", "", "", "", []⟩

/-! # Theorems -/

/-! ## Claim C7: strict method checking -/

/-- Claim C7: for every route and request, unless method checking is
globally disabled, a request whose method differs from the route's
declared method gets exactly the 405 response, and nothing else of the
route — binder, handler, serializer — can influence the outcome, so the
handler is never invoked. -/
theorem C7_method_mismatch_405 (cfg : Config) (h : Route) (req : Request)
    (hc : cfg.dontCheckRequestMethod = false) (hm : req.method ≠ h.method) :
    serveHTTP cfg h req = .ok (httpError "405: Method Not Allowed" 405) := by
  simp [serveHTTP, hc, hm]

/-- Witness for C7 at a concrete route and request. -/
theorem C7_method_mismatch_405_witness :
    cfgZero.dontCheckRequestMethod = false ∧ reqTextPlain.method ≠ "GET" ∧
      serveHTTP cfgZero
        ⟨"GET", fun _ => .ok [], fun _ => [], fun _ _ => ⟨200, "", ""⟩⟩ reqTextPlain =
        .ok (httpError "405: Method Not Allowed" 405) :=
  ⟨rfl, by decide,
    C7_method_mismatch_405 cfgZero _ reqTextPlain rfl (by decide)⟩

/-! ## Claim C1: the error result short-circuits serialization -/

/-- Claim C1 (amended): for every serializer built for a two-result
handler, a non-nil second error value yields status 500 with the
`text/plain` error message followed by the newline `http.Error`
appends, independently of the first result value, which is therefore
never serialized. -/
theorem C1_error_short_circuits (ext : Ext) (out : List TypeRep)
    (wr : Config → List RVal → Response) (hwr : writeResultFunc ext out = .ok wr)
    (hlen : out.length = 2) (cfg : Config) (r0 : RVal) (msg : String) (rest : List RVal) :
    wr cfg (r0 :: .errV (some msg) :: rest) =
      { status := 500, contentType := "text/plain; charset=utf-8", body := msg ++ "\x0a" } := by
  match out, hlen with
  | [t1, t2], _ =>
    by_cases h2 : t2 = .errorTy
    · subst h2
      cases t1 with
      | urlValues => simp [writeResultFunc, firstResult] at hwr
      | errorTy => simp [writeResultFunc, firstResult] at hwr
      | otherTy n => simp [writeResultFunc, firstResult] at hwr
      | stringTy =>
          simp [writeResultFunc, firstResult] at hwr
          subst hwr
          simp [errOf, writeError, httpError]
      | structPtr d =>
          simp [writeResultFunc, firstResult] at hwr
          subst hwr
          simp [errOf, writeError, httpError]
      | structTy d =>
          simp [writeResultFunc, firstResult] at hwr
          subst hwr
          simp [errOf, writeError, httpError]
    · simp [writeResultFunc, h2] at hwr

/-- Witness for C1's amended statement: the serializer of
`func() (*AB, error)` maps the result pair `(nil, error "boom")` to the
500 response with body `boom` plus newline. -/
theorem C1_error_short_circuits_witness :
    ∃ wr, writeResultFunc extDefault [.structPtr descAB, .errorTy] = .ok wr ∧
      wr cfgZero [.structPtrV none, .errV (some "boom")] =
        { status := 500, contentType := "text/plain; charset=utf-8", body := "boom\x0a" } :=
  ⟨_, rfl,
    C1_error_short_circuits extDefault [.structPtr descAB, .errorTy] _ rfl rfl cfgZero
      (.structPtrV none) "boom" []⟩

/-- Counterexample to C1 as stated: registering `func() (*AB, error)`
and serving a request on which it returns the error `boom` produces a
body of `boom` followed by a newline — not a body equal to exactly the
error's message string. -/
theorem C1_counterexample :
    ∃ reg r, HandleGET extDefault [] "/e" fnGetErr [] = .ok reg ∧
      lookupRoute reg "/e" = some r ∧
      serveHTTP cfgZero r reqGETzero =
        .ok { status := 500, contentType := "text/plain; charset=utf-8", body := "boom\x0a" } ∧
      "boom\x0a" ≠ "boom" :=
  ⟨_, _, rfl, rfl, rfl, by decide⟩

/-! ## Claim C3: re-registering a path -/

/-- Claim C3 (amended): registering a handler — via `HandleGET` or
`HandlePOST` — on a path that already has a route never succeeds: the
HTTP mux panics on the duplicate pattern (when the signature checks
panic first, registration still fails).  The existing route is not
replaced. -/
theorem muxHandle_dup (reg : Registry) (path : String) (r : Route)
    (hdup : (lookupRoute reg path).isSome = true) :
    ∀ reg', muxHandle reg path r ≠ .ok reg' := by
  intro reg' h
  unfold muxHandle at h
  split at h
  · simp at h
  · simp [hdup] at h

theorem C3_duplicate_registration_fails (ext : Ext) (reg : Registry) (path : String)
    (handler : GoVal) (object : List ObjArg)
    (hdup : (lookupRoute reg path).isSome = true) :
    (∀ reg', HandleGET ext reg path handler object ≠ .ok reg') ∧
      (∀ reg', HandlePOST ext reg path handler object ≠ .ok reg') := by
  constructor
  · intro reg' h
    unfold HandleGET at h
    repeat' split at h
    all_goals
      first
        | exact muxHandle_dup reg path _ hdup _ h
        | simp at h
  · intro reg' h
    unfold HandlePOST at h
    repeat' split at h
    all_goals
      first
        | exact muxHandle_dup reg path _ hdup _ h
        | simp at h

/-- Witness for C3's amended statement at a concrete occupied path. -/
theorem C3_duplicate_registration_fails_witness :
    ∃ reg1, HandleGET extDefault [] "/s" fnGetAB [] = .ok reg1 ∧
      (∀ reg', HandleGET extDefault reg1 "/s" fnGetAB [] ≠ .ok reg') := by
  refine ⟨_, rfl, ?_⟩
  exact (C3_duplicate_registration_fails extDefault _ "/s" fnGetAB [] (by rfl)).1

/-- Counterexample to C3 as stated: the second registration on `/s`
does not silently overwrite the first — it fails with the mux's
duplicate-registration panic. -/
theorem C3_counterexample :
    ∃ reg1, HandleGET extDefault [] "/s" fnGetAB [] = .ok reg1 ∧
      HandleGET extDefault reg1 "/s" fnGetErr [] =
        .error "http: multiple registrations for /s" :=
  ⟨_, rfl, rfl⟩

/-! ## Claim C6: bound-receiver registration -/

/-- Claim C6 (the code): supplying a bound receiver object does prepend
the receiver to every invocation, and a method with no visible
parameter classifies fine; but building the visible parameter list for
a method with one visible parameter writes past the freshly made
slice (`in[i]` instead of `in[i-1]`), so that registration panics with
an index-out-of-range runtime error instead of succeeding. -/
theorem C6_receiver_classification :
    (getHandlerFunc (.func fnEcho) [.ptrObj recvMarker]).map
        (fun r => (r.2.1, r.2.2, r.1 [])) = .ok ([], [], [recvMarker]) ∧
      getHandlerFunc (.func fnMeth1) [.ptrObj recvMarker] =
        .error "runtime error: index out of range" :=
  ⟨rfl, rfl⟩

/-! ## Claim C5: the multipart branch -/

/-- Claim C5 (the code): no multipart request ever reaches the JSON
decode of an uploaded file.  With the header exactly
`multipart/form-data` the branch is taken but the boundary parameter is
missing, so `FormFile` panics; with a boundary parameter the header no
longer matches the exact-string switch and the request panics as an
unsupported content type.  (And the decode line itself reads
`request.Body`, already consumed, not the file — see `postGetArgs`.) -/
theorem C5_multipart_never_decodes :
    (∀ (ext : Ext) (d : StructDesc) (req : Request),
        req.contentType = "multipart/form-data" →
        postGetArgs ext (.structPtr d) req =
          .error "no multipart boundary param in Content-Type") ∧
      (∀ (ext : Ext) (d : StructDesc) (req : Request),
        req.contentType = "multipart/form-data; boundary=x" →
        postGetArgs ext (.structPtr d) req =
          .error "Unsupported POST Content-Type: multipart/form-data; boundary=x") := by
  constructor
  · intro ext d req hct
    simp [postGetArgs, hct, formFile, extractBoundary, splitOnChar]
  · intro ext d req hct
    simp [postGetArgs, hct]

/-- Witness for C5 at concrete requests that carry a well-formed `JSON`
file part: both shapes panic, the handler never sees the part. -/
theorem C5_multipart_never_decodes_witness :
    reqMpPlain.contentType = "multipart/form-data" ∧
      reqMpPlain.parts = [("JSON", "\x7b\"A\":1\x7d")] ∧
      postGetArgs extDefault (.structPtr descAB) reqMpPlain =
        .error "no multipart boundary param in Content-Type" ∧
      postGetArgs extDefault (.structPtr descAB) reqMpBound =
        .error "Unsupported POST Content-Type: multipart/form-data; boundary=x" :=
  ⟨rfl, rfl, C5_multipart_never_decodes.1 extDefault descAB reqMpPlain rfl,
    C5_multipart_never_decodes.2 extDefault descAB reqMpBound rfl⟩

/-! ## Claim C2: request-time parse failures -/

/-- Claim C2 (amended): a body that fails to parse under the negotiated
content type makes the binder panic out of `ServeHTTP` — no HTTP
response, in particular no 500, is written; the surrounding server's
per-connection recovery turns this into an aborted connection, so the
process survives and other requests are unaffected.  The wrong-method
405 is still produced before any parsing. -/
theorem C2_parse_failure_panics (ext : Ext) (cfg : Config) (r : Route) (a : TypeRep)
    (hr : r.method = "POST") (hget : r.getArgs = postGetArgs ext a)
    (req : Request) (hm : req.method = "POST") :
    (∀ e, postGetArgs ext a req = .error e →
      serveConn cfg r req = .aborted e ∧
        ∀ resp : Response, serveHTTP cfg r req ≠ .ok resp) ∧
      (∀ d, a = .structPtr d → req.contentType = "application/json" →
        parseJsonText req.rawBody = none →
        postGetArgs ext a req = .error "unexpected end of JSON input") ∧
      (∀ d e, a = .structPtr d → req.contentType = "application/xml" →
        ext.xmlUnmarshal d req.rawBody = .error e →
        postGetArgs ext a req = .error e) ∧
      (∀ d, a = .structPtr d → req.contentType = "multipart/form-data" →
        postGetArgs ext a req = .error "no multipart boundary param in Content-Type") ∧
      (req.contentType ∉ ["", "application/x-www-form-urlencoded", "text/plain",
          "application/xml", "application/json", "multipart/form-data"] →
        postGetArgs ext a req =
          .error ("Unsupported POST Content-Type: " ++ req.contentType)) ∧
      (∀ d, a = .structPtr d → req.contentType = "application/x-www-form-urlencoded" →
        formNumKeys (goParseForm req) = 1 → formGet (goParseForm req) "JSON" ≠ "" →
        parseJsonText (formGet (goParseForm req) "JSON") = none →
        postGetArgs ext a req = .error "unexpected end of JSON input") ∧
      (cfg.dontCheckRequestMethod = false → ∀ req2 : Request, req2.method ≠ "POST" →
        serveConn cfg r req2 = .response (httpError "405: Method Not Allowed" 405)) := by
  have hne : ¬(¬cfg.dontCheckRequestMethod = true ∧ ¬req.method = r.method) := by
    simp [hm, hr]
  refine ⟨?_, ?_, ?_, ?_, ?_, ?_, ?_⟩
  · intro e he
    have hserve : serveHTTP cfg r req = .error e := by
      simp only [serveHTTP, if_neg hne, hget, he, Except.map]
    exact ⟨by simp [serveConn, hserve], by simp [hserve]⟩
  · intro d had hct hbad
    subst had
    simp [postGetArgs, hct, jsonUnmarshalText, hbad, Except.map]
  · intro d e had hct hxml
    subst had
    simp [postGetArgs, hct, hxml, Except.map]
  · intro d had hct
    subst had
    have hb : extractBoundary "multipart/form-data" = none := rfl
    simp [postGetArgs, hct, formFile, hb]
  · intro hnotin
    simp only [List.mem_cons, List.mem_singleton, not_or] at hnotin
    obtain ⟨h1, h2, h3, h4, h5, h6, -⟩ := hnotin
    simp [postGetArgs, h1, h2, h3, h4, h5, h6]
  · intro d had hct hnum hjf hbad
    subst had
    simp [postGetArgs, hct, bindFormStruct, hnum, hjf, jsonUnmarshalText, hbad, Except.map]
  · intro hchk req2 hm2
    have h405 := C7_method_mismatch_405 cfg r req2 hchk (by rw [hr]; exact hm2)
    simp [serveConn, h405]

/-- Witness for C2's amended statement: on one struct-pointer POST
route, a malformed `application/json` body, a bare multipart header
without a boundary parameter, and a boundary-bearing multipart header
(an unsupported content type for the exact-match switch) each abort the
connection with no response written. -/
theorem C2_parse_failure_panics_witness :
    ∃ r : Route,
      serveConn cfgZero r reqBadJson = .aborted "unexpected end of JSON input" ∧
      (∀ resp : Response, serveHTTP cfgZero r reqBadJson ≠ .ok resp) ∧
      serveConn cfgZero r reqMpPlain =
        .aborted "no multipart boundary param in Content-Type" ∧
      serveConn cfgZero r reqMpBound =
        .aborted "Unsupported POST Content-Type: multipart/form-data; boundary=x" := by
  refine ⟨⟨"POST", postGetArgs extDefault (.structPtr descAB), fun _ => [],
    fun _ _ => ⟨200, "", ""⟩⟩, ?_, ?_, ?_, ?_⟩
  · have h := C2_parse_failure_panics extDefault cfgZero
      ⟨"POST", postGetArgs extDefault (.structPtr descAB), fun _ => [],
        fun _ _ => ⟨200, "", ""⟩⟩ (.structPtr descAB) rfl rfl reqBadJson rfl
    exact (h.1 _ (h.2.1 descAB rfl rfl rfl)).1
  · have h := C2_parse_failure_panics extDefault cfgZero
      ⟨"POST", postGetArgs extDefault (.structPtr descAB), fun _ => [],
        fun _ _ => ⟨200, "", ""⟩⟩ (.structPtr descAB) rfl rfl reqBadJson rfl
    exact (h.1 _ (h.2.1 descAB rfl rfl rfl)).2
  · have h := C2_parse_failure_panics extDefault cfgZero
      ⟨"POST", postGetArgs extDefault (.structPtr descAB), fun _ => [],
        fun _ _ => ⟨200, "", ""⟩⟩ (.structPtr descAB) rfl rfl reqMpPlain rfl
    exact (h.1 _ (h.2.2.2.1 descAB rfl rfl)).1
  · have h := C2_parse_failure_panics extDefault cfgZero
      ⟨"POST", postGetArgs extDefault (.structPtr descAB), fun _ => [],
        fun _ _ => ⟨200, "", ""⟩⟩ (.structPtr descAB) rfl rfl reqMpBound rfl
    exact (h.1 _ (h.2.2.2.2.1 (by decide))).1

/-- Counterexample to C2 as stated: on the registered struct-pointer
POST route, the malformed JSON body `{` does not produce an HTTP 500
response — the handler panics and no response exists at all. -/
theorem C2_counterexample :
    ∃ reg r, HandlePOST extDefault [] "/p" fnPostAB [] = .ok reg ∧
      lookupRoute reg "/p" = some r ∧
      serveHTTP cfgZero r reqBadJson = .error "unexpected end of JSON input" ∧
      (∀ resp : Response, serveHTTP cfgZero r reqBadJson ≠ .ok resp) := by
  exact ⟨_, _, rfl, rfl, rfl, fun resp h => Except.noConfusion h⟩

/-! ## Claim C8: the text/plain branch -/

/-- Claim C8 (amended): with content type `text/plain` the whole body
is passed verbatim as the string argument; but a route whose parameter
kind is not string is rejected at request time — classification accepts
struct-pointer (and url.Values) parameters, and the panic fires only
when a text/plain request arrives. -/
theorem C8_text_plain (ext : Ext) (req : Request) (hct : req.contentType = "text/plain") :
    postGetArgs ext .stringTy req = .ok [.strV req.rawBody] ∧
      (∀ d, postGetArgs ext (.structPtr d) req =
        .error "HandlePOST(): first handler argument must be a string when request Content-Type is text/plain") ∧
      postGetArgs ext .urlValues req =
        .error "HandlePOST(): first handler argument must be a string when request Content-Type is text/plain" ∧
      (∀ (path : String) (d : StructDesc) (call : ReflectFn), path ≠ "" →
        (HandlePOST ext [] path (.func ⟨[.structPtr d], [], call⟩) []).isOk = true) := by
  refine ⟨by simp [postGetArgs, hct], fun d => by simp [postGetArgs, hct],
    by simp [postGetArgs, hct], ?_⟩
  intro path d call hpath
  simp [HandlePOST, getHandlerFunc, isStructPtrT, writeResultFunc, firstResult, muxHandle,
    hpath, lookupRoute, Except.isOk, Except.toBool]

/-- Witness for C8's amended statement at the concrete text/plain
request and the `/p` struct-pointer registration. -/
theorem C8_text_plain_witness :
    postGetArgs extDefault .stringTy reqTextPlain = .ok [.strV "hello"] ∧
      (HandlePOST extDefault [] "/p" (.func ⟨[.structPtr descAB], [], fun _ => []⟩) []).isOk =
        true :=
  ⟨(C8_text_plain extDefault reqTextPlain rfl).1,
    (C8_text_plain extDefault reqTextPlain rfl).2.2.2 "/p" descAB (fun _ => []) (by decide)⟩

/-- Counterexample to C8 as stated: registering the struct-pointer
handler on a POST route succeeds — classification does not fail — and
the failure happens only when a `text/plain` request arrives, as a
request-time panic. -/
theorem C8_counterexample :
    (HandlePOST extDefault [] "/p" fnPostAB []).isOk = true ∧
      (∃ reg r, HandlePOST extDefault [] "/p" fnPostAB [] = .ok reg ∧
        lookupRoute reg "/p" = some r ∧
        serveConn cfgZero r reqTextPlain =
          .aborted
            "HandlePOST(): first handler argument must be a string when request Content-Type is text/plain") :=
  ⟨rfl, _, _, rfl, rfl, rfl⟩

/-! ## Claim C10: what the parsed form contains -/

/-- Claim C10 (amended): with the `application/x-www-form-urlencoded`
content type on a POST request, the map passed to a url.Values handler
is the parsed form merging the body's fields with the URL query
parameters (body values first per key), and the struct-pointer path
operates on that same merged form — its single-`JSON`-field decode
condition reads it.  With an absent content type, however, the body is
not parsed at all and the form holds only the query parameters. -/
theorem C10_form_merge (ext : Ext) (req : Request) (hm : req.method = "POST")
    (hct : req.contentType = "application/x-www-form-urlencoded") :
    postGetArgs ext .urlValues req =
      .ok [.formV
        (formOfPairs (parseQueryPairs req.rawBody ++ parseQueryPairs req.rawQuery))] ∧
      (∀ d, postGetArgs ext (.structPtr d) req =
        (bindFormStruct ext d
            (formOfPairs (parseQueryPairs req.rawBody ++ parseQueryPairs req.rawQuery))).map
          (fun v => [.structPtrV (some v)])) ∧
      (∀ req2 : Request, req2.contentType = "" →
        postGetArgs ext .urlValues req2 =
          .ok [.formV (formOfPairs (parseQueryPairs req2.rawQuery))]) := by
  have hform : goParseForm req =
      formOfPairs (parseQueryPairs req.rawBody ++ parseQueryPairs req.rawQuery) := by
    simp [goParseForm, hm, hct]
  refine ⟨?_, fun d => ?_, fun req2 hct2 => ?_⟩
  · simp [postGetArgs, hct, hform]
  · simp [postGetArgs, hct, hform]
  · have hform2 : goParseForm req2 = formOfPairs (parseQueryPairs req2.rawQuery) := by
      simp [goParseForm, hct2]
    simp [postGetArgs, hct2, hform2]

/-- Witness for C10's amended statement: body `A=1`, query `B=5`. -/
theorem C10_form_merge_witness :
    postGetArgs extDefault .urlValues
        ⟨"POST", "B=5", "application/x-www-form-urlencoded", "A=1", []⟩ =
      .ok [.formV [("A", ["1"]), ("B", ["5"])]] := by
  have h := (C10_form_merge extDefault
    ⟨"POST", "B=5", "application/x-www-form-urlencoded", "A=1", []⟩ rfl rfl).1
  exact h

/-- Counterexample to C10 as stated: with no Content-Type header the
body `A=1` is not parsed into the form — the handler receives only the
query parameters, so the form does not contain the body's fields. -/
theorem C10_counterexample :
    postGetArgs extDefault .urlValues reqNoCT = .ok [.formV [("B", ["5"])]] ∧
      parseQueryPairs reqNoCT.rawBody = [("A", "1")] ∧
      formLookup [("B", ["5"])] "A" = none :=
  ⟨rfl, rfl, rfl⟩

/-! ## Claim C4: form coercion, field by field

The source folds over the form entries; the claim reads field by field.
The lemmas below characterise the fold and close the gap. -/

theorem formAdd_keys (k v : String) :
    ∀ f : Form, formKeys (formAdd f k v) =
      if k ∈ formKeys f then formKeys f else formKeys f ++ [k]
  | [] => by simp [formAdd, formKeys]
  | (k0, vs) :: rest => by
      by_cases hk : k0 = k
      · subst hk
        simp [formAdd, formKeys]
      · have ih := formAdd_keys k v rest
        have hk2 : ¬k = k0 := fun h => hk h.symm
        by_cases hmem : k ∈ formKeys rest <;>
          simp only [formKeys, List.mem_cons] at ih hmem ⊢ <;>
          simp [formAdd, hk, hk2, hmem, ih]

theorem formAdd_keys_nodup (k v : String) (f : Form) (h : (formKeys f).Nodup) :
    (formKeys (formAdd f k v)).Nodup := by
  rw [formAdd_keys]
  by_cases hmem : k ∈ formKeys f
  · simpa [hmem]
  · simpa [hmem, List.nodup_append] using h

theorem formAdd_wf (k v : String) (f : Form) (h : ∀ e ∈ f, e.2 ≠ []) :
    ∀ e ∈ formAdd f k v, e.2 ≠ [] := by
  induction f with
  | nil => simp [formAdd]
  | cons e0 rest ih =>
      obtain ⟨k0, vs⟩ := e0
      by_cases hk : k0 = k
      · subst hk
        intro e he
        simp only [formAdd, if_pos rfl] at he
        rcases List.mem_cons.mp he with h1 | h1
        · subst h1; simp
        · exact h e (List.mem_cons_of_mem _ h1)
      · intro e he
        simp only [formAdd, hk, if_false] at he
        rcases List.mem_cons.mp he with h1 | h1
        · subst h1; exact h (k0, vs) (List.mem_cons_self _ _)
        · exact ih (fun e2 he2 => h e2 (List.mem_cons_of_mem _ he2)) e h1

theorem formOfPairs_invariants (ps : List (String × String)) :
    (formKeys (formOfPairs ps)).Nodup ∧ ∀ e ∈ formOfPairs ps, e.2 ≠ [] := by
  suffices h : ∀ f : Form, (formKeys f).Nodup → (∀ e ∈ f, e.2 ≠ []) →
      (formKeys (ps.foldl (fun f p => formAdd f p.1 p.2) f)).Nodup ∧
        ∀ e ∈ ps.foldl (fun f p => formAdd f p.1 p.2) f, e.2 ≠ [] by
    exact h [] (by simp [formKeys]) (by simp)
  induction ps with
  | nil => exact fun f h1 h2 => ⟨h1, h2⟩
  | cons p rest ih =>
      intro f h1 h2
      exact ih _ (formAdd_keys_nodup p.1 p.2 f h1) (formAdd_wf p.1 p.2 f h2)

theorem findIdxFrom_some_spec (p : FieldDesc → Bool) :
    ∀ (fs : List FieldDesc) (n m : Nat), findIdxFrom p n fs = some m →
      ∃ j, m = n + j ∧ ∃ fd, fs[j]? = some fd ∧ p fd = true := by
  intro fs
  induction fs with
  | nil => intro n m h; simp [findIdxFrom] at h
  | cons fd rest ih =>
      intro n m h
      by_cases hp : p fd
      · rw [findIdxFrom, if_pos hp] at h
        exact ⟨0, by rw [Nat.add_zero]; exact (Option.some.inj h).symm, fd, by simp, hp⟩
      · simp only [findIdxFrom, hp, if_false] at h
        obtain ⟨j, hj, fd2, hget, hp2⟩ := ih (n + 1) m h
        exact ⟨j + 1, by omega, fd2, by simpa using hget, hp2⟩

theorem findIdxFrom_first (p : FieldDesc → Bool) :
    ∀ (fs : List FieldDesc) (n j : Nat) (fd : FieldDesc), fs[j]? = some fd → p fd = true →
      (∀ j' (fd' : FieldDesc), j' < j → fs[j']? = some fd' → p fd' = false) →
      findIdxFrom p n fs = some (n + j) := by
  intro fs
  induction fs with
  | nil => intro n j fd h; simp at h
  | cons fd0 rest ih =>
      intro n j fd hget hp hfirst
      cases j with
      | zero =>
          simp at hget
          subst hget
          simp [findIdxFrom, hp]
      | succ j0 =>
          have hp0 : p fd0 = false := hfirst 0 fd0 (by omega) (by simp)
          rw [findIdxFrom, if_neg (by simp [hp0])]
          have heq : n + 1 + j0 = n + (j0 + 1) := by omega
          rw [← heq]
          exact ih (n + 1) j0 fd (by simpa using hget) hp
            (fun j' fd' hlt hg => hfirst (j' + 1) fd' (by omega) (by simpa using hg))

theorem fieldByName_get (d : StructDesc) (k : String) (i : Nat)
    (h : fieldByName d k = some i) :
    ∃ fd, d.fields[i]? = some fd ∧ fd.name = k := by
  obtain ⟨j, hj, fd, hget, hp⟩ := findIdxFrom_some_spec _ d.fields 0 i h
  exact ⟨fd, by simpa [hj] using hget, by simpa using hp⟩

theorem fieldByName_of_get (d : StructDesc)
    (hnodup : (d.fields.map FieldDesc.name).Nodup) (i : Nat) (fd : FieldDesc)
    (hget : d.fields[i]? = some fd) : fieldByName d fd.name = some i := by
  have hi : i < d.fields.length := by
    by_contra hlt
    rw [List.getElem?_eq_none (by omega)] at hget
    exact Option.noConfusion hget
  have := findIdxFrom_first (fun fd' => fd'.name = fd.name) d.fields 0 i fd hget
    (by simp)
    (fun j' fd' hlt hg => by
      have hj' : j' < d.fields.length := by
        by_contra hc
        rw [List.getElem?_eq_none (by omega)] at hg
        exact Option.noConfusion hg
      simp only [decide_eq_false_iff_not]
      intro hname
      have hmapj : (d.fields.map FieldDesc.name)[j']? = some fd.name := by
        simp [List.getElem?_map, hg, hname]
      have hmapi : (d.fields.map FieldDesc.name)[i]? = some fd.name := by
        simp [List.getElem?_map, hget]
      have : j' = i :=
        List.getElem?_inj (by simpa using hj') hnodup (hmapj.trans hmapi.symm)
      omega)
  simpa [fieldByName] using this

theorem coerceEntry_eq (ext : Ext) (d : StructDesc) (acc : StructVal)
    (e : String × List String) :
    coerceEntry ext d acc e =
      match fieldByName d e.1 with
      | none => acc
      | some i =>
          match d.fields[i]? with
          | none => acc
          | some fd =>
              match coerceAct ext fd e.2 with
              | some x => acc.set i x
              | none => acc := by
  obtain ⟨k, vals⟩ := e
  cases hf : fieldByName d k with
  | none => simp [coerceEntry, hf]
  | some i =>
      cases hg : d.fields[i]? with
      | none => simp [coerceEntry, coerceAct, hf, hg]
      | some fd =>
          by_cases hcs : fd.canSet
          · cases hk : fd.kind
            · simp [coerceEntry, coerceAct, hf, hg, hcs, hk]
            · cases hb : goParseBool (vals.head?.getD "") <;>
                simp [coerceEntry, coerceAct, hf, hg, hcs, hk, hb]
            · cases hb : goParseInt (vals.head?.getD "") <;>
                simp [coerceEntry, coerceAct, hf, hg, hcs, hk, hb]
            · cases hb : goParseUint (vals.head?.getD "") <;>
                simp [coerceEntry, coerceAct, hf, hg, hcs, hk, hb]
            · cases hb : ext.parseFloat (vals.head?.getD "") <;>
                simp [coerceEntry, coerceAct, hf, hg, hcs, hk, hb]
          · simp [coerceEntry, coerceAct, hf, hg, hcs]

theorem coerceEntry_length (ext : Ext) (d : StructDesc) (acc : StructVal)
    (e : String × List String) : (coerceEntry ext d acc e).length = acc.length := by
  rw [coerceEntry_eq]
  cases hf : fieldByName d e.1 with
  | none => simp
  | some i =>
      cases hg : d.fields[i]? with
      | none => simp [hg]
      | some fd =>
          cases ha : coerceAct ext fd e.2 with
          | none => simp [hg, ha]
          | some x => simp [hg, ha]

theorem coerceEntry_getElem_ne (ext : Ext) (d : StructDesc) (acc : StructVal)
    (e : String × List String) (i : Nat) (h : fieldByName d e.1 ≠ some i) :
    (coerceEntry ext d acc e)[i]? = acc[i]? := by
  rw [coerceEntry_eq]
  cases hf : fieldByName d e.1 with
  | none => simp
  | some j =>
      have hji : j ≠ i := fun hh => h (hh ▸ hf)
      cases hg : d.fields[j]? with
      | none => simp [hg]
      | some fd =>
          cases ha : coerceAct ext fd e.2 with
          | none => simp [hg, ha]
          | some x => simpa [hg, ha] using List.getElem?_set_ne hji (l := acc) (a := x)

theorem foldl_coerce_length (ext : Ext) (d : StructDesc) :
    ∀ (entries : List (String × List String)) (acc : StructVal),
      (entries.foldl (coerceEntry ext d) acc).length = acc.length := by
  intro entries
  induction entries with
  | nil => intro acc; rfl
  | cons e rest ih =>
      intro acc
      rw [List.foldl_cons, ih, coerceEntry_length]

theorem foldl_coerce_untouched (ext : Ext) (d : StructDesc) :
    ∀ (entries : List (String × List String)) (acc : StructVal) (i : Nat),
      (∀ e ∈ entries, fieldByName d e.1 ≠ some i) →
      (entries.foldl (coerceEntry ext d) acc)[i]? = acc[i]? := by
  intro entries
  induction entries with
  | nil => intro acc i _; rfl
  | cons e rest ih =>
      intro acc i h
      rw [List.foldl_cons, ih _ _ (fun e2 he2 => h e2 (List.mem_cons_of_mem _ he2)),
        coerceEntry_getElem_ne _ _ _ _ _ (h e (List.mem_cons_self _ _))]

theorem foldl_coerce_getElem (ext : Ext) (d : StructDesc) :
    ∀ (entries : List (String × List String)) (acc : StructVal) (i : Nat),
      (formKeys entries).Nodup → acc.length = d.fields.length →
      (entries.foldl (coerceEntry ext d) acc)[i]? =
        (match entries.find? (fun e => fieldByName d e.1 == some i) with
         | some e =>
             match d.fields[i]? with
             | some fd =>
                 match coerceAct ext fd e.2 with
                 | some x => some x
                 | none => acc[i]?
             | none => acc[i]?
         | none => acc[i]?) := by
  intro entries
  induction entries with
  | nil => intro acc i _ _; rfl
  | cons e rest ih =>
      intro acc i hnodup hacc
      have hconsK : formKeys (e :: rest) = e.1 :: formKeys rest := rfl
      rw [hconsK] at hnodup
      have hnodupR : (formKeys rest).Nodup := (List.nodup_cons.mp hnodup).2
      have hknotin : e.1 ∉ formKeys rest := (List.nodup_cons.mp hnodup).1
      by_cases hfe : fieldByName d e.1 = some i
      · -- this entry hits field i; no later entry can
        obtain ⟨fd, hget, hname⟩ := fieldByName_get d e.1 i hfe
        have hrest : ∀ e2 ∈ rest, fieldByName d e2.1 ≠ some i := by
          intro e2 he2 h2
          obtain ⟨fd2, hget2, hname2⟩ := fieldByName_get d e2.1 i h2
          rw [hget] at hget2
          have heqf : fd = fd2 := Option.some.inj hget2
          apply hknotin
          rw [← hname, heqf, hname2]
          exact List.mem_map_of_mem Prod.fst he2
        rw [List.foldl_cons, foldl_coerce_untouched ext d rest _ i hrest]
        have hfind : (e :: rest).find? (fun e2 => fieldByName d e2.1 == some i) = some e := by
          simp [List.find?_cons, hfe]
        rw [hfind, coerceEntry_eq, hfe]
        have hi : i < acc.length := by
          rw [hacc]
          by_contra hc
          rw [List.getElem?_eq_none (by omega)] at hget
          exact Option.noConfusion hget
        cases ha : coerceAct ext fd e.2 with
        | none => simp [hget, ha]
        | some x => simp [hget, ha, List.getElem?_set_eq_of_lt x hi]
      · rw [List.foldl_cons,
          ih (coerceEntry ext d acc e) i hnodupR (by rw [coerceEntry_length]; exact hacc)]
        have hfind : (e :: rest).find? (fun e2 => fieldByName d e2.1 == some i) =
            rest.find? (fun e2 => fieldByName d e2.1 == some i) := by
          simp [List.find?_cons, hfe]
        rw [hfind, coerceEntry_getElem_ne ext d acc e i hfe]

theorem formLookup_eq_find? (k : String) :
    ∀ f : Form, formLookup f k = (f.find? (fun e => e.1 == k)).map Prod.snd := by
  intro f
  induction f with
  | nil => rfl
  | cons e rest ih =>
      obtain ⟨k0, vs⟩ := e
      by_cases hk : k0 = k
      · subst hk; simp [formLookup, List.find?_cons]
      · simp [formLookup, List.find?_cons, hk, ih]

theorem find?_congr_pred {α : Type} (p q : α → Bool) :
    ∀ l : List α, (∀ a ∈ l, p a = q a) → l.find? p = l.find? q := by
  intro l
  induction l with
  | nil => intro _; rfl
  | cons a rest ih =>
      intro h
      have ha := h a (List.mem_cons_self _ _)
      simp only [List.find?_cons, ha]
      cases q a with
      | true => rfl
      | false => exact ih (fun b hb => h b (List.mem_cons_of_mem _ hb))

/-- Claim C4 core: the source's fold over the form equals the claim's
field-by-field description, for any form with distinct keys and
non-empty value lists (which every parsed form has). -/
theorem coerceForm_eq_spec (ext : Ext) (d : StructDesc) (form : Form)
    (hnodupF : (formKeys form).Nodup)
    (hnodup : (d.fields.map FieldDesc.name).Nodup) :
    coerceForm ext d form = coerceFormSpec ext d form := by
  apply List.ext_getElem?
  intro i
  rw [coerceForm, foldl_coerce_getElem ext d form (zeroStruct d) i hnodupF
    (by simp [zeroStruct])]
  have hzero : (zeroStruct d)[i]? = (d.fields[i]?).map (fun fd => zeroField fd.kind) := by
    simp [zeroStruct]
  have hspec : (coerceFormSpec ext d form)[i]? =
      (d.fields[i]?).map (coercedField ext form) := by
    simp [coerceFormSpec]
  rw [hspec]
  cases hget : d.fields[i]? with
  | none =>
      cases hFi : form.find? (fun e => fieldByName d e.1 == some i) <;>
        simp [hzero, hget, hFi]
  | some fd =>
      have hfind : form.find? (fun e => fieldByName d e.1 == some i) =
          form.find? (fun e => e.1 == fd.name) := by
        apply find?_congr_pred
        intro e _
        by_cases he : e.1 = fd.name
        · have hfb := fieldByName_of_get d hnodup i fd hget
          show (fieldByName d e.1 == some i) = (e.1 == fd.name)
          rw [he, hfb, beq_self_eq_true, beq_self_eq_true]
        · show (fieldByName d e.1 == some i) = (e.1 == fd.name)
          have hne : fieldByName d e.1 ≠ some i := by
            intro hf
            obtain ⟨fd2, hget2, hname2⟩ := fieldByName_get d e.1 i hf
            rw [hget] at hget2
            exact he (hname2 ▸ congrArg FieldDesc.name (Option.some.inj hget2).symm)
          rw [beq_eq_false_iff_ne.mpr hne, beq_eq_false_iff_ne.mpr he]
      rw [hfind]
      cases hF : form.find? (fun e => e.1 == fd.name) with
      | none =>
          have hlook : formLookup form fd.name = none := by
            rw [formLookup_eq_find? fd.name form, hF]; rfl
          simp [hzero, hget, coercedField, hlook]
      | some e =>
          have hlook : formLookup form fd.name = some e.2 := by
            rw [formLookup_eq_find? fd.name form, hF]; rfl
          simp only [coercedField, hlook]
          cases hact : coerceAct ext fd e.2 with
          | none => simp [hzero, hget, hact, coercedField, hlook]
          | some x => simp [hact, coercedField, hlook]

/-- Claim C4: for a struct-pointer POST route with absent or
form-urlencoded content type, when the parsed form is not a single
field named `JSON`, the handler receives a fresh instance whose fields
are exactly the claim's description: the coerced first value of the
form entry matching the field's name (string passthrough, parse-or-skip
for bool/float/int/uint on a writable field), zero for fields without a
matching key, unmatched keys ignored. -/
theorem C4_form_coercion (ext : Ext) (d : StructDesc) (req : Request)
    (hct : req.contentType = "" ∨ req.contentType = "application/x-www-form-urlencoded")
    (hnotjson : formKeys (goParseForm req) ≠ ["JSON"])
    (hnodup : (d.fields.map FieldDesc.name).Nodup) :
    postGetArgs ext (.structPtr d) req =
      .ok [.structPtrV (some (coerceFormSpec ext d (goParseForm req)))] := by
  have hinv := formOfPairs_invariants
    ((if (req.method = "POST" ∨ req.method = "PUT" ∨ req.method = "PATCH")
          ∧ req.contentType = "application/x-www-form-urlencoded"
      then parseQueryPairs req.rawBody else []) ++ parseQueryPairs req.rawQuery)
  have hform : (formKeys (goParseForm req)).Nodup := by
    rw [goParseForm]; exact hinv.1
  have hnotJ : ¬(formNumKeys (goParseForm req) = 1 ∧ formGet (goParseForm req) "JSON" ≠ "") := by
    rintro ⟨hlen, hget⟩
    match hF : goParseForm req, hlen with
    | [(k, vs)], _ =>
        by_cases hk : k = "JSON"
        · subst hk
          exact hnotjson (by rw [hF]; rfl)
        · rw [hF] at hget
          simp [formGet, formLookup, hk] at hget
  have hbind : bindFormStruct ext d (goParseForm req) =
      .ok (coerceForm ext d (goParseForm req)) := by
    rw [bindFormStruct, if_neg hnotJ]
  rcases hct with hct | hct <;>
    simp [postGetArgs, hct, hbind, coerceForm_eq_spec ext d (goParseForm req) hform hnodup,
      Except.map]

/-- Witness for C4: the claim's own example — form `A=1&B=2` against
`struct{A int; B string}` yields the argument `{A: 1, B: "2"}`. -/
theorem C4_form_coercion_witness :
    postGetArgs extDefault (.structPtr descAB) reqFormAB =
      .ok [.structPtrV (some [.intV 1, .str "2"])] := by
  have h := C4_form_coercion extDefault descAB reqFormAB (Or.inr rfl) (by decide) (by decide)
  rw [h]
  rfl

/-! ## Claim C9, layer 1: digits -/

theorem charDigit_digitChar (d : Nat) (h : d < 10) : charDigit (digitChar d) = d := by
  interval_cases d <;> decide

theorem isDigitC_digitChar (d : Nat) (h : d < 10) : isDigitC (digitChar d) = true := by
  interval_cases d <;> decide

theorem natChars_all_digits (n : Nat) : ∀ c ∈ natChars n, isDigitC c = true := by
  intro c hc
  rw [natChars] at hc
  by_cases h : n = 0
  · rw [if_pos h] at hc
    simp at hc
    subst hc
    decide
  · rw [if_neg h] at hc
    simp at hc
    obtain ⟨d, hd, rfl⟩ := hc
    exact isDigitC_digitChar d (Nat.digits_lt_base (by norm_num) hd)

theorem natChars_ne_nil (n : Nat) : natChars n ≠ [] := by
  rw [natChars]
  by_cases h : n = 0
  · simp [h]
  · simp [h, Nat.digits_ne_nil_iff_ne_zero.mpr h]

theorem digitsVal_from (ds : List Char) :
    ∀ a : Nat, ds.foldl (fun a c => a * 10 + charDigit c) a =
      a * 10 ^ ds.length + digitsVal ds := by
  induction ds with
  | nil => intro a; simp [digitsVal]
  | cons c ds ih =>
      intro a
      have h1 := ih (a * 10 + charDigit c)
      have h2 := ih (charDigit c)
      simp only [List.foldl_cons, digitsVal] at h1 h2 ⊢
      rw [h1]
      rw [show (0 : Nat) * 10 + charDigit c = charDigit c by ring, h2]
      simp [List.length_cons]
      ring

theorem digitsVal_append (xs ys : List Char) :
    digitsVal (xs ++ ys) = digitsVal xs * 10 ^ ys.length + digitsVal ys := by
  rw [digitsVal, List.foldl_append, digitsVal_from]
  rfl

theorem digitsVal_replicate_zero (k : Nat) :
    digitsVal (List.replicate k '0') = 0 := by
  induction k with
  | zero => rfl
  | succ k ih =>
      rw [List.replicate_succ, digitsVal, List.foldl_cons]
      simpa [digitsVal, charDigit] using ih

theorem foldr_ofDigits (ds : List Nat) (h : ∀ d ∈ ds, d < 10) :
    ds.foldr (fun d a => a * 10 + charDigit (digitChar d)) 0 = Nat.ofDigits 10 ds := by
  induction ds with
  | nil => rfl
  | cons d ds ih =>
      rw [List.foldr_cons, ih (fun x hx => h x (List.mem_cons_of_mem _ hx)),
        Nat.ofDigits_cons, charDigit_digitChar d (h d (List.mem_cons_self _ _))]
      ring

theorem digitsVal_natChars (n : Nat) : digitsVal (natChars n) = n := by
  rw [natChars]
  by_cases h : n = 0
  · simp [h]
    decide
  · rw [if_neg h, digitsVal, List.foldl_reverse, List.foldr_map,
      foldr_ofDigits _ (fun d hd => Nat.digits_lt_base (by norm_num) hd),
      Nat.ofDigits_digits]

theorem digits_length_le_of_lt_pow {m e : Nat} (h : m < 10 ^ e) :
    (Nat.digits 10 m).length ≤ e := by
  rcases Nat.eq_zero_or_pos m with rfl | hm
  · simp
  · rw [Nat.digits_len 10 m (by norm_num) (by omega)]
    have := (Nat.lt_pow_iff_log_lt (by norm_num : 1 < 10) (by omega : m ≠ 0)).mp h
    omega

theorem natChars_length_le {r e : Nat} (he : 0 < e) (h : r < 10 ^ e) :
    (natChars r).length ≤ e := by
  rw [natChars]
  by_cases hr : r = 0
  · simp [hr]
    omega
  · simpa [hr] using digits_length_le_of_lt_pow h

theorem padDigits_length {e r : Nat} (he : 0 < e) (h : r < 10 ^ e) :
    (padDigits e r).length = e := by
  have := natChars_length_le he h
  simp only [padDigits, List.length_append, List.length_replicate]
  omega

theorem padDigits_all_digits (e r : Nat) : ∀ c ∈ padDigits e r, isDigitC c = true := by
  intro c hc
  rw [padDigits] at hc
  rcases List.mem_append.mp hc with h1 | h1
  · rw [List.eq_of_mem_replicate h1]
    decide
  · exact natChars_all_digits r c h1

theorem digitsVal_padDigits (e r : Nat) : digitsVal (padDigits e r) = r := by
  rw [padDigits, digitsVal_append, digitsVal_replicate_zero, digitsVal_natChars]
  ring

theorem padDigits_ne_nil {e r : Nat} (he : 0 < e) (h : r < 10 ^ e) :
    padDigits e r ≠ [] := by
  intro hc
  have hlen := padDigits_length he h
  rw [hc] at hlen
  simp only [List.length_nil] at hlen
  omega

theorem natChars_no_leading_zero (n : Nat) :
    ¬((natChars n).length > 1 ∧ (natChars n).head? = some '0') := by
  rintro ⟨hlen, hhead⟩
  by_cases h : n = 0
  · rw [natChars, if_pos h] at hlen
    exact absurd hlen (by decide)
  · rw [natChars, if_neg h, List.head?_reverse, List.getLast?_map] at hhead
    have hne : Nat.digits 10 n ≠ [] := Nat.digits_ne_nil_iff_ne_zero.mpr h
    rw [List.getLast?_eq_getLast _ hne] at hhead
    simp only [Option.map_some', Option.some.injEq] at hhead
    have hlast := Nat.getLast_digit_ne_zero 10 h
    have hlt : (Nat.digits 10 n).getLast hne < 10 :=
      Nat.digits_lt_base (by norm_num) (List.getLast_mem hne)
    have := charDigit_digitChar _ hlt
    rw [hhead] at this
    exact hlast (by simpa [charDigit] using this.symm)

theorem spanDigits_of_append :
    ∀ (xs rest : List Char), (∀ c ∈ xs, isDigitC c = true) →
      (∀ c, rest.head? = some c → isDigitC c = false) →
      spanDigits (xs ++ rest) = (xs, rest) := by
  intro xs
  induction xs with
  | nil =>
      intro rest _ h2
      cases rest with
      | nil => rfl
      | cons c t =>
          rw [List.nil_append, spanDigits, if_neg]
          rw [h2 c rfl]
          simp
  | cons c xs ih =>
      intro rest h1 h2
      rw [List.cons_append, spanDigits,
        if_pos (h1 c (List.mem_cons_self _ _)),
        ih rest (fun x hx => h1 x (List.mem_cons_of_mem _ hx)) h2]

/-! ## Claim C9, layer 2: numbers -/

theorem numStop_facts (rest : List Char) (h : numStop rest = true) :
    (∀ c, rest.head? = some c → isDigitC c = false) ∧ rest.head? ≠ some '.' ∧
      ¬(rest.head? = some 'e' ∨ rest.head? = some 'E') := by
  cases rest with
  | nil => simp
  | cons c t =>
      have h2 : isDigitC c = false ∧ c ≠ '.' ∧ c ≠ 'e' ∧ c ≠ 'E' := by
        simpa [numStop, Bool.not_eq_true] using h
      refine ⟨fun c2 hc2 => ?_, fun hc => ?_, fun hc => ?_⟩
      · rw [List.head?_cons, Option.some.injEq] at hc2
        exact hc2 ▸ h2.1
      · rw [List.head?_cons, Option.some.injEq] at hc
        exact h2.2.1 hc
      · rcases hc with hc | hc <;> rw [List.head?_cons, Option.some.injEq] at hc
        · exact h2.2.2.1 hc
        · exact h2.2.2.2 hc

theorem numChars_split (m : Int) (e : Nat) :
    numChars m e = (if m < 0 then ['-'] else []) ++ numCharsU m.natAbs e := by
  rw [numChars, numCharsU]
  by_cases he : e = 0
  · rw [if_pos he, if_pos he, intChars]
    by_cases hm : m < 0 <;> simp [hm]
  · rw [if_neg he, if_neg he]
    simp [List.append_assoc]

theorem numCharsU_head_digit (a e : Nat) :
    ∃ c cs, numCharsU a e = c :: cs ∧ isDigitC c = true := by
  rw [numCharsU]
  by_cases he : e = 0
  · rw [if_pos he]
    cases hx : natChars a with
    | nil => exact absurd hx (natChars_ne_nil a)
    | cons c cs =>
        exact ⟨c, cs, rfl, natChars_all_digits a c (hx ▸ List.mem_cons_self _ _)⟩
  · rw [if_neg he]
    cases hx : natChars (a / 10 ^ e) with
    | nil => exact absurd hx (natChars_ne_nil _)
    | cons c cs =>
        exact ⟨c, _, rfl, natChars_all_digits _ c (hx ▸ List.mem_cons_self _ _)⟩

theorem parseNumCore_round (neg : Bool) (a e : Nat) (rest : List Char)
    (hstop : numStop rest = true) :
    parseNumCore neg (numCharsU a e ++ rest) =
      some (((if neg then -(a : Int) else (a : Int)), e), rest) := by
  obtain ⟨hrd, hdot, hexp⟩ := numStop_facts rest hstop
  by_cases he : e = 0
  · subst he
    rw [numCharsU, if_pos rfl]
    cases hcc : natChars a with
    | nil => exact absurd hcc (natChars_ne_nil a)
    | cons c cs =>
        have hspan : spanDigits ((c :: cs) ++ rest) = (c :: cs, rest) := by
          rw [← hcc]
          exact spanDigits_of_append _ _ (natChars_all_digits a) hrd
        have hlz : ¬((c :: cs).length > 1 ∧ (c :: cs).head? = some '0') := by
          rw [← hcc]
          exact natChars_no_leading_zero a
        have hval : digitsVal (c :: cs) = a := by
          rw [← hcc, digitsVal_natChars]
        simp only [parseNumCore, hspan]
        rw [if_neg hlz, if_neg hdot]
        simp only [if_neg hexp]
        simp [List.append_nil, hval]
  · have he0 : 0 < e := Nat.pos_of_ne_zero he
    have hmod : a % 10 ^ e < 10 ^ e := Nat.mod_lt _ (Nat.pos_pow_of_pos e (by norm_num))
    rw [numCharsU, if_neg he]
    cases hcc : natChars (a / 10 ^ e) with
    | nil => exact absurd hcc (natChars_ne_nil _)
    | cons c cs =>
        cases hpp : padDigits e (a % 10 ^ e) with
        | nil => exact absurd hpp (padDigits_ne_nil he0 hmod)
        | cons p ps =>
            have harr : (c :: cs) ++ '.' :: (p :: ps) ++ rest =
                (c :: cs) ++ ('.' :: ((p :: ps) ++ rest)) := by simp
            have hspan1 : spanDigits ((c :: cs) ++ ('.' :: ((p :: ps) ++ rest))) =
                (c :: cs, '.' :: ((p :: ps) ++ rest)) := by
              rw [← hcc]
              exact spanDigits_of_append _ _ (natChars_all_digits _)
                (fun c2 hc2 => by cases hc2; decide)
            have hspan2 : spanDigits ((p :: ps) ++ rest) = (p :: ps, rest) := by
              rw [← hpp]
              exact spanDigits_of_append _ _ (padDigits_all_digits _ _) hrd
            have hlz : ¬((c :: cs).length > 1 ∧ (c :: cs).head? = some '0') := by
              rw [← hcc]
              exact natChars_no_leading_zero _
            have hlen : (p :: ps).length = e := by
              rw [← hpp]
              exact padDigits_length he0 hmod
            have hval : digitsVal ((c :: cs) ++ (p :: ps)) = a := by
              rw [digitsVal_append, ← hcc, ← hpp, digitsVal_natChars, digitsVal_padDigits,
                hpp, hlen, Nat.mul_comm]
              exact Nat.div_add_mod a (10 ^ e)
            rw [harr]
            simp only [parseNumCore, hspan1]
            rw [if_neg hlz]
            simp only [List.head?_cons, List.tail_cons, eq_self_iff_true, if_true, hspan2]
            simp only [if_neg hexp]
            simp [hlen]
            rw [show c :: (cs ++ p :: ps) = (c :: cs) ++ (p :: ps) from rfl, hval]

theorem parseNumBody_head_minus (u : List Char) :
    parseNumBody ('-' :: u) = parseNumCore true u := rfl

theorem parseNumBody_head_other (c : Char) (u : List Char) (h : c ≠ '-') :
    parseNumBody (c :: u) = parseNumCore false (c :: u) := by
  simp [parseNumBody, h]

theorem parseNumBody_round (m : Int) (e : Nat) (rest : List Char)
    (hstop : numStop rest = true) :
    parseNumBody (numChars m e ++ rest) = some ((m, e), rest) := by
  rw [numChars_split]
  obtain ⟨c, cs, hcc, hdig⟩ := numCharsU_head_digit m.natAbs e
  by_cases hm : m < 0
  · rw [if_pos hm, List.singleton_append]
    have hmm : -((m.natAbs : Nat) : Int) = m := by omega
    calc parseNumBody ('-' :: (numCharsU m.natAbs e ++ rest))
        = parseNumCore true (numCharsU m.natAbs e ++ rest) := rfl
      _ = some ((-((m.natAbs : Nat) : Int), e), rest) := by
            rw [parseNumCore_round true m.natAbs e rest hstop, if_pos rfl]
      _ = some ((m, e), rest) := by rw [hmm]
  · have hcm : c ≠ '-' := by
      intro hh
      rw [hh] at hdig
      exact absurd hdig (by decide)
    rw [if_neg hm, List.nil_append, hcc, List.cons_append,
      parseNumBody_head_other c (cs ++ rest) hcm, ← List.cons_append, ← hcc,
      parseNumCore_round false m.natAbs e rest hstop, if_neg (by simp)]
    have hmm : ((m.natAbs : Nat) : Int) = m := by omega
    rw [hmm]

/-! ## Claim C9, layer 3: strings -/

theorem hexVal_hexLower (x : Nat) (h : x < 16) : hexVal (hexLower x) = some x := by
  interval_cases x <;> decide

theorem escU_parse (c : Char) (hlt : c.toNat < 65536) (rest : List Char) :
    parseStrBody (escU c.toNat ++ rest) =
      (parseStrBody rest).map (fun r => (c :: r.1, r.2)) := by
  rw [escU]
  have h1 : c.toNat / 4096 % 16 < 16 := Nat.mod_lt _ (by norm_num)
  have h2 : c.toNat / 256 % 16 < 16 := Nat.mod_lt _ (by norm_num)
  have h3 : c.toNat / 16 % 16 < 16 := Nat.mod_lt _ (by norm_num)
  have h4 : c.toNat % 16 < 16 := Nat.mod_lt _ (by norm_num)
  have harith : ((c.toNat / 4096 % 16 * 16 + c.toNat / 256 % 16) * 16 +
      c.toNat / 16 % 16) * 16 + c.toNat % 16 = c.toNat := by omega
  simp only [List.cons_append, List.nil_append, parseStrBody,
    hexVal_hexLower _ h1, hexVal_hexLower _ h2, hexVal_hexLower _ h3, hexVal_hexLower _ h4,
    harith, Char.ofNat_toNat]
  rfl

theorem escChar_round (c : Char) (rest : List Char) :
    parseStrBody (escChar c ++ rest) =
      (parseStrBody rest).map (fun r => (c :: r.1, r.2)) := by
  by_cases hq : c = '"'
  · subst hq; rfl
  by_cases hb : c = '\\'
  · subst hb; rfl
  by_cases hn : c = '\x0a'
  · subst hn; rfl
  by_cases hr : c = '\x0d'
  · subst hr; rfl
  by_cases ht : c = '\x09'
  · subst ht; rfl
  by_cases hc32 : c.toNat < 32
  · rw [escChar, if_neg hq, if_neg hb, if_neg hn, if_neg hr, if_neg ht, if_pos hc32]
    exact escU_parse c (by omega) rest
  by_cases hhtml : c = '<' ∨ c = '>' ∨ c = '&'
  · rw [escChar, if_neg hq, if_neg hb, if_neg hn, if_neg hr, if_neg ht, if_neg hc32,
      if_pos hhtml]
    rcases hhtml with h | h | h <;> subst h <;> exact escU_parse _ (by decide) rest
  by_cases hls : c.toNat = 0x2028 ∨ c.toNat = 0x2029
  · rw [escChar, if_neg hq, if_neg hb, if_neg hn, if_neg hr, if_neg ht, if_neg hc32,
      if_neg hhtml, if_pos hls]
    exact escU_parse c (by omega) rest
  · rw [escChar, if_neg hq, if_neg hb, if_neg hn, if_neg hr, if_neg ht, if_neg hc32,
      if_neg hhtml, if_neg hls, List.singleton_append]
    simp [parseStrBody, hq, hb]

theorem strBody_round (s : List Char) :
    ∀ rest : List Char,
      parseStrBody (s.flatMap escChar ++ ('"' :: rest)) = some (s, rest) := by
  induction s with
  | nil => intro rest; rfl
  | cons c s ih =>
      intro rest
      rw [List.flatMap_cons, List.append_assoc, escChar_round, ih]
      rfl

/-! ## Claim C9, layer 4: scalar values -/

theorem isDigitC_facts (c : Char) (h : isDigitC c = true) :
    c ≠ '{' ∧ c ≠ '[' ∧ c ≠ '"' ∧ c ≠ 't' ∧ c ≠ 'f' ∧ c ≠ 'n' := by
  have hv : 48 ≤ c.toNat ∧ c.toNat ≤ 57 := by simpa [isDigitC] using h
  refine ⟨?_, ?_, ?_, ?_, ?_, ?_⟩ <;> (intro hc; subst hc; revert hv; decide)

theorem parseVal_quote (f : Nat) (t : List Char) :
    parseVal (f + 1) ('"' :: t) =
      (parseStrBody t).map (fun r => (.str ⟨r.1⟩, r.2)) := rfl

theorem parseVal_minus (f : Nat) (t : List Char) :
    parseVal (f + 1) ('-' :: t) =
      (parseNumBody ('-' :: t)).map (fun r => (.num r.1.1 r.1.2, r.2)) := rfl

theorem parseVal_scalar (j : Json) (hs : scalarJson j = true) (f : Nat) (rest : List Char)
    (hstop : numStop rest = true) :
    parseVal (f + 1) (renderJson j ++ rest) = some (j, rest) := by
  cases j with
  | arr xs => exact absurd hs (by simp [scalarJson])
  | obj ms => exact absurd hs (by simp [scalarJson])
  | null => rfl
  | boolJ b => cases b <;> rfl
  | str s =>
      have hshape : renderJson (.str s) ++ rest =
          '"' :: (s.data.flatMap escChar ++ ('"' :: rest)) := by
        simp [renderJson, strChars]
      rw [hshape, parseVal_quote, strBody_round]
      rfl
  | num m e =>
      show parseVal (f + 1) (numChars m e ++ rest) = some (.num m e, rest)
      have hu := numCharsU_head_digit m.natAbs e
      obtain ⟨c, cs, hcc, hdig⟩ := hu
      by_cases hm : m < 0
      · have hhd : numChars m e ++ rest = '-' :: (numCharsU m.natAbs e ++ rest) := by
          rw [numChars_split, if_pos hm]
          simp
        rw [hhd, parseVal_minus,
          show '-' :: (numCharsU m.natAbs e ++ rest) = numChars m e ++ rest from hhd.symm,
          parseNumBody_round m e rest hstop]
        rfl
      · have hhd : numChars m e ++ rest = c :: (cs ++ rest) := by
          rw [numChars_split, if_neg hm, List.nil_append, hcc, List.cons_append]
        obtain ⟨hc1, hc2, hc3, hc4, hc5, hc6⟩ := isDigitC_facts c hdig
        have hws : isWs c = false := by
          have hv : 48 ≤ c.toNat ∧ c.toNat ≤ 57 := by simpa [isDigitC] using hdig
          rcases hv with ⟨hl, hr⟩
          simp only [isWs, decide_eq_false_iff_not]
          rintro (hc | hc | hc | hc) <;> (subst hc; revert hl hr; decide)
        rw [hhd]
        simp only [parseVal, skipWs, List.dropWhile_cons, hws]
        simp only [Bool.false_eq_true, if_false]
        rw [if_neg hc1, if_neg hc2, if_neg hc3, if_neg hc4, if_neg hc5, if_neg hc6,
          if_pos (Or.inr hdig)]
        rw [show c :: (cs ++ rest) = numChars m e ++ rest from hhd.symm,
          parseNumBody_round m e rest hstop]
        rfl

/-! ## Claim C9, layer 5: object members -/

theorem parseMems1_quote (fuel : Nat) (t : List Char) :
    parseMems1 (fuel + 1) ('"' :: t) =
      match parseStrBody t with
      | none => none
      | some (key, r1) =>
          match skipWs r1 with
          | ':' :: r2 =>
              match parseVal fuel r2 with
              | none => none
              | some (v, r3) =>
                  match skipWs r3 with
                  | ',' :: r4 =>
                      (parseMems1 fuel (skipWs r4)).map
                        (fun r => ((⟨key⟩, v) :: r.1, r.2))
                  | '}' :: r4 => some ([(⟨key⟩, v)], r4)
                  | _ => none
          | _ => none := rfl

theorem renderMems_cons_quote (kv : String × Json) (tail : List (String × Json)) :
    ∃ cs, renderMems (kv :: tail) = '"' :: cs := by
  obtain ⟨k, v⟩ := kv
  cases tail <;> exact ⟨_, rfl⟩

theorem parseMems1_round (ms : List (String × Json)) :
    ∀ (f : Nat) (rest : List Char), ms ≠ [] → (∀ m ∈ ms, scalarJson m.2 = true) →
      parseMems1 (ms.length + f + 1) (renderMems ms ++ ('}' :: rest)) = some (ms, rest) := by
  induction ms with
  | nil => intro f rest hne _; exact absurd rfl hne
  | cons kv tail ih =>
      intro f rest _ hsc
      obtain ⟨k, v⟩ := kv
      cases tail with
      | nil =>
          have hshape : renderMems [(k, v)] ++ ('}' :: rest) =
              '"' :: (k.data.flatMap escChar ++
                ('"' :: (':' :: (renderJson v ++ ('}' :: rest))))) := by
            simp [renderMems, strChars]
          rw [show ([(k, v)].length + f + 1 : Nat) = (f + 1) + 1 by
            simp only [List.length_cons, List.length_nil]; omega]
          rw [hshape, parseMems1_quote (f + 1), strBody_round]
          have hval := parseVal_scalar v (hsc (k, v) (List.mem_cons_self _ _)) f
            ('}' :: rest) (by rfl)
          simp [hval, skipWs, isWs]
      | cons kv2 tail2 =>
          have hshape : renderMems ((k, v) :: kv2 :: tail2) ++ ('}' :: rest) =
              '"' :: (k.data.flatMap escChar ++
                ('"' :: (':' :: (renderJson v ++
                  (',' :: (renderMems (kv2 :: tail2) ++ ('}' :: rest))))))) := by
            simp [renderMems, strChars]
          rw [show (((k, v) :: kv2 :: tail2).length + f + 1 : Nat) =
            (tail2.length + f + 2) + 1 by
            simp only [List.length_cons]; omega]
          rw [hshape, parseMems1_quote (tail2.length + f + 2), strBody_round]
          have hval := parseVal_scalar v (hsc (k, v) (List.mem_cons_self _ _))
            (tail2.length + f + 1)
            (',' :: (renderMems (kv2 :: tail2) ++ ('}' :: rest))) (by rfl)
          have hval2 : parseVal (tail2.length + f + 2)
              (renderJson v ++ (',' :: (renderMems (kv2 :: tail2) ++ ('}' :: rest)))) =
              some (v, ',' :: (renderMems (kv2 :: tail2) ++ ('}' :: rest))) := by
            rw [show (tail2.length + f + 2 : Nat) = (tail2.length + f + 1) + 1 by omega]
            exact hval
          have hskip : List.dropWhile isWs (renderMems (kv2 :: tail2) ++ ('}' :: rest)) =
              renderMems (kv2 :: tail2) ++ ('}' :: rest) := by
            obtain ⟨cs2, hcs2⟩ := renderMems_cons_quote kv2 tail2
            rw [hcs2, List.cons_append, List.dropWhile_cons]
            rw [show isWs '"' = false from rfl]
            rfl
          have hrec := ih f rest (by simp)
            (fun m hm => hsc m (List.mem_cons_of_mem _ hm))
          have hrec2 : parseMems1 (tail2.length + f + 2)
              (renderMems (kv2 :: tail2) ++ ('}' :: rest)) = some (kv2 :: tail2, rest) := by
            rw [show (tail2.length + f + 2 : Nat) = (kv2 :: tail2).length + f + 1 by
              simp only [List.length_cons]; omega]
            exact hrec
          simp [hval2, hskip, hrec2, skipWs, isWs]

theorem renderMems_length_ge (ms : List (String × Json)) :
    ms.length ≤ (renderMems ms).length := by
  induction ms with
  | nil => simp [renderMems]
  | cons kv tail ih =>
      obtain ⟨k, v⟩ := kv
      cases tail with
      | nil => simp [renderMems, strChars]
      | cons kv2 tail2 =>
          have hih : tail2.length + 1 ≤ (renderMems (kv2 :: tail2)).length := by
            simpa using ih
          rw [show renderMems ((k, v) :: kv2 :: tail2) =
            strChars k ++ ':' :: renderJson v ++ ',' :: renderMems (kv2 :: tail2) from rfl]
          simp only [List.length_cons, List.length_append, strChars]
          omega

/-- A flat document of scalar members parses back from its compact text
to exactly itself. -/
theorem parseVal_brace (f : Nat) (t : List Char) :
    parseVal (f + 1) ('{' :: t) =
      match skipWs t with
      | '}' :: r => some (.obj [], r)
      | t1 => (parseMems1 f t1).map (fun r => (.obj r.1, r.2)) := rfl

theorem parseJsonText_round_obj (ms : List (String × Json))
    (hsc : ∀ m ∈ ms, scalarJson m.2 = true) :
    parseJsonText (String.mk (renderJson (.obj ms))) = some (.obj ms) := by
  cases ms with
  | nil => rfl
  | cons kv tail =>
      obtain ⟨cs, hcs⟩ := renderMems_cons_quote kv tail
      have hrlen := renderMems_length_ge (kv :: tail)
      rw [parseJsonText]
      have hdata : (String.mk (renderJson (.obj (kv :: tail)))).data =
          renderJson (.obj (kv :: tail)) := rfl
      have hlen : (String.mk (renderJson (.obj (kv :: tail)))).length =
          (renderJson (.obj (kv :: tail))).length := rfl
      rw [hdata, hlen]
      have hshape : renderJson (.obj (kv :: tail)) =
          '{' :: (renderMems (kv :: tail) ++ ('}' :: [])) := by
        rw [show renderJson (.obj (kv :: tail)) =
          '{' :: renderMems (kv :: tail) ++ ['}'] from rfl]
        simp
      rw [hshape]
      have hlen2 : ('{' :: (renderMems (kv :: tail) ++ ('}' :: []))).length =
          (renderMems (kv :: tail)).length + 2 := by simp
      rw [hlen2]
      rw [show ((renderMems (kv :: tail)).length + 2 + 2 : Nat) =
        ((renderMems (kv :: tail)).length + 3) + 1 by omega]
      rw [parseVal_brace ((renderMems (kv :: tail)).length + 3)]
      have hmems2 : parseMems1 ((renderMems (kv :: tail)).length + 3)
          (renderMems (kv :: tail) ++ ('}' :: [])) = some (kv :: tail, []) := by
        rw [show ((renderMems (kv :: tail)).length + 3 : Nat) =
          (kv :: tail).length +
            ((renderMems (kv :: tail)).length + 2 - (kv :: tail).length) + 1 by
          simp only [List.length_cons] at hrlen ⊢; omega]
        exact parseMems1_round (kv :: tail)
          ((renderMems (kv :: tail)).length + 2 - (kv :: tail).length) [] (by simp) hsc
      rw [hcs] at hmems2
      simp only [List.cons_append, List.length_cons] at hmems2
      simp [skipWs, isWs, hcs, hmems2, List.cons_append]

/-! ## Claim C9, layer 7: struct encode/decode round trip -/

theorem getElem_append_len {α : Type} (l₁ : List α) (a : α) (l₂ : List α) :
    (l₁ ++ a :: l₂)[l₁.length]? = some a := by
  induction l₁ with
  | nil => simp
  | cons x xs ih => simpa using ih

theorem set_append_len {α : Type} (l₁ : List α) (a b : α) (l₂ : List α) :
    (l₁ ++ a :: l₂).set l₁.length b = l₁ ++ b :: l₂ := by
  induction l₁ with
  | nil => rfl
  | cons x xs ih => simp [ih]

theorem fieldFromJson_marshal (k : FieldKind) (fv : FieldVal) (j : Json)
    (htyped : fieldTyped k fv = true) (hm : marshalField fv = .ok j) (cur : FieldVal) :
    fieldFromJson k cur j = .ok fv := by
  cases fv with
  | str s =>
      cases k <;> simp [fieldTyped] at htyped
      simp [marshalField] at hm
      subst hm
      rfl
  | boolV b =>
      cases k <;> simp [fieldTyped] at htyped
      simp [marshalField] at hm
      subst hm
      rfl
  | intV i =>
      cases k <;> simp [fieldTyped] at htyped
      simp [marshalField] at hm
      subst hm
      simp [fieldFromJson, htyped]
  | uintV n =>
      cases k <;> simp [fieldTyped] at htyped
      simp [marshalField] at hm
      subst hm
      have hnn : (0 : Int) ≤ (n : Int) := Int.natCast_nonneg n
      have hlt : ((n : Int) < 2 ^ 64) := by exact_mod_cast htyped
      simp [fieldFromJson, hnn, hlt, htyped]
  | floatV x =>
      cases k <;> simp [fieldTyped] at htyped
      cases x with
      | finite m e =>
          simp [marshalField] at hm
          subst hm
          rfl
      | inf neg => simp [marshalField] at hm
      | nan => simp [marshalField] at hm

theorem name_index_unique (l : List FieldDesc)
    (hnd : (l.map FieldDesc.name).Nodup) (i j : Nat) (fd fd' : FieldDesc)
    (hi : l[i]? = some fd) (hj : l[j]? = some fd') (hname : fd'.name = fd.name) :
    j = i := by
  have h1 : (l.map FieldDesc.name)[i]? = some fd.name := by
    rw [List.getElem?_map, hi]; rfl
  have h2 : (l.map FieldDesc.name)[j]? = some fd'.name := by
    rw [List.getElem?_map, hj]; rfl
  rw [hname] at h2
  have hjlt : j < (l.map FieldDesc.name).length := by
    have := List.getElem?_eq_some.mp hj
    simpa using this.1
  exact List.getElem?_inj hjlt hnd (h2.trans h1.symm)

theorem findFieldIdx_of_get (d : StructDesc)
    (hnd : (d.fields.map FieldDesc.name).Nodup) (i : Nat) (fd : FieldDesc)
    (hi : d.fields[i]? = some fd) (hset : fd.canSet = true) (hig : fd.jsonIgnore = false) :
    findFieldIdx d fd.name = some i := by
  have hfirst := findIdxFrom_first
    (fun fd' => fd'.canSet && !fd'.jsonIgnore && fd'.name = fd.name)
    d.fields 0 i fd hi (by simp [hset, hig])
    (fun j fd' hj hget => by
      have hne : fd'.name ≠ fd.name := fun hname =>
        absurd (name_index_unique d.fields hnd i j fd fd' hi hget hname) (by omega)
      simp [hne])
  rw [findFieldIdx, hfirst]
  simp

theorem marshalFields_scalar :
    ∀ (fds : List FieldDesc) (vs : List FieldVal) (mems : List (String × Json)),
      marshalFields fds vs = .ok mems → ∀ m ∈ mems, scalarJson m.2 = true := by
  intro fds
  induction fds with
  | nil =>
      intro vs mems hm
      cases vs with
      | nil =>
          have hinj : ([] : List (String × Json)) = mems := by injection hm
          subst hinj
          simp
      | cons fv fvs => exact Except.noConfusion hm
  | cons fd fds' ih =>
      intro vs mems hm
      cases vs with
      | nil => exact Except.noConfusion hm
      | cons fv fvs =>
          rw [marshalFields] at hm
          by_cases hcase : fd.canSet ∧ ¬fd.jsonIgnore
          · rw [if_pos hcase] at hm
            cases hmf : marshalField fv with
            | error e => rw [hmf] at hm; exact Except.noConfusion hm
            | ok j =>
                rw [hmf] at hm
                cases hrest : marshalFields fds' fvs with
                | error e => rw [hrest] at hm; exact Except.noConfusion hm
                | ok rest =>
                    rw [hrest] at hm
                    have hinj : ((fd.name, j) :: rest) = mems := by injection hm
                    subst hinj
                    intro m hmem
                    rcases List.mem_cons.mp hmem with hhd | htl
                    · subst hhd
                      cases fv with
                      | str s =>
                          have h : Json.str s = j := by injection hmf
                          subst h; rfl
                      | boolV b =>
                          have h : Json.boolJ b = j := by injection hmf
                          subst h; rfl
                      | intV i =>
                          have h : Json.num i 0 = j := by injection hmf
                          subst h; rfl
                      | uintV n =>
                          have h : Json.num n 0 = j := by injection hmf
                          subst h; rfl
                      | floatV x =>
                          cases x with
                          | finite m2 e2 =>
                              have h : Json.num m2 e2 = j := by injection hmf
                              subst h; rfl
                          | inf neg => exact Except.noConfusion hmf
                          | nan => exact Except.noConfusion hmf
                    · exact ih fvs rest hrest m htl
          · rw [if_neg hcase] at hm
            exact ih fvs mems hm


theorem marshalFields_ok :
    ∀ (fds : List FieldDesc) (vs : List FieldVal),
      vs.length = fds.length → (∀ fv ∈ vs, fieldFinite fv = true) →
      ∃ mems, marshalFields fds vs = .ok mems := by
  intro fds
  induction fds with
  | nil =>
      intro vs hlen _
      have hvs : vs = [] := List.length_eq_zero.mp (by simpa using hlen)
      subst hvs
      exact ⟨[], rfl⟩
  | cons fd fds' ih =>
      intro vs hlen hfin
      cases vs with
      | nil => simp at hlen
      | cons fv fvs =>
          obtain ⟨rest, hrest⟩ := ih fvs (by simpa using hlen)
            (fun x hx => hfin x (List.mem_cons_of_mem _ hx))
          have hok : ∃ j, marshalField fv = .ok j := by
            have hf := hfin fv (List.mem_cons_self _ _)
            cases fv with
            | floatV x =>
                cases x with
                | finite m e => exact ⟨_, rfl⟩
                | inf neg => simp [fieldFinite] at hf
                | nan => simp [fieldFinite] at hf
            | str s => exact ⟨_, rfl⟩
            | boolV b => exact ⟨_, rfl⟩
            | intV i => exact ⟨_, rfl⟩
            | uintV n => exact ⟨_, rfl⟩
          obtain ⟨j, hj⟩ := hok
          rw [marshalFields]
          by_cases hcase : fd.canSet ∧ ¬fd.jsonIgnore
          · rw [if_pos hcase, hj, hrest]
            exact ⟨_, rfl⟩
          · rw [if_neg hcase]
            exact ⟨rest, hrest⟩

theorem decode_fold (d : StructDesc)
    (hnodup : (d.fields.map FieldDesc.name).Nodup) :
    ∀ (fds : List FieldDesc) (vs : List FieldVal) (pre : List FieldDesc)
      (done : StructVal) (mems : List (String × Json)),
      d.fields = pre ++ fds →
      done.length = pre.length →
      vs.length = fds.length →
      (fds.zip vs).all (fun p => fieldTyped p.1.kind p.2) = true →
      marshalFields fds vs = .ok mems →
      mems.foldlM (applyMem d) (done ++ fds.map (fun fd => zeroField fd.kind)) =
        .ok (done ++ (fds.zip vs).map
          (fun p => if p.1.canSet ∧ ¬p.1.jsonIgnore then p.2 else zeroField p.1.kind)) := by
  intro fds
  induction fds with
  | nil =>
      intro vs pre done mems _ _ hlen _ hm
      have hvs : vs = [] := List.length_eq_zero.mp (by simpa using hlen)
      subst hvs
      have hinj : ([] : List (String × Json)) = mems := by injection hm
      subst hinj
      simp
      rfl
  | cons fd fds' ih =>
      intro vs pre done mems hsplit hdone hlen htyped hm
      cases vs with
      | nil => simp at hlen
      | cons fv fvs =>
          have htyhd : fieldTyped fd.kind fv = true := by
            have := htyped
            simp only [List.zip_cons_cons, List.all_cons, Bool.and_eq_true] at this
            exact this.1
          have htytl : (fds'.zip fvs).all (fun p => fieldTyped p.1.kind p.2) = true := by
            have := htyped
            simp only [List.zip_cons_cons, List.all_cons, Bool.and_eq_true] at this
            exact this.2
          rw [marshalFields] at hm
          by_cases hcase : fd.canSet ∧ ¬fd.jsonIgnore
          · rw [if_pos hcase] at hm
            cases hmf : marshalField fv with
            | error e => rw [hmf] at hm; exact Except.noConfusion hm
            | ok j =>
                rw [hmf] at hm
                cases hrest : marshalFields fds' fvs with
                | error e => rw [hrest] at hm; exact Except.noConfusion hm
                | ok rest =>
                    rw [hrest] at hm
                    have hinj : ((fd.name, j) :: rest) = mems := by injection hm
                    subst hinj
                    have hgetd : d.fields[pre.length]? = some fd := by
                      rw [hsplit]; exact getElem_append_len pre fd fds'
                    have hfind : findFieldIdx d fd.name = some pre.length :=
                      findFieldIdx_of_get d hnodup pre.length fd hgetd
                        (by simpa using hcase.1) (by simpa using hcase.2)
                    have hgeta : (done ++ zeroField fd.kind ::
                        fds'.map (fun fd => zeroField fd.kind))[pre.length]? =
                        some (zeroField fd.kind) := by
                      rw [← hdone]; exact getElem_append_len done _ _
                    have hffj : fieldFromJson fd.kind (zeroField fd.kind) j = .ok fv :=
                      fieldFromJson_marshal fd.kind fv j htyhd hmf _
                    have hset : (done ++ zeroField fd.kind ::
                        fds'.map (fun fd => zeroField fd.kind)).set pre.length fv =
                        done ++ fv :: fds'.map (fun fd => zeroField fd.kind) := by
                      rw [← hdone]; exact set_append_len done _ _ _
                    have hstep : applyMem d
                        (done ++ zeroField fd.kind :: fds'.map (fun fd => zeroField fd.kind))
                        (fd.name, j) =
                        .ok (done ++ fv :: fds'.map (fun fd => zeroField fd.kind)) := by
                      rw [applyMem]
                      simp only [hfind, hgetd, hgeta, hffj, Except.map, hset]
                    have hih := ih fvs (pre ++ [fd]) (done ++ [fv]) rest
                      (by rw [hsplit]; simp)
                      (by simp [hdone])
                      (by simpa using hlen)
                      htytl hrest
                    simp only [List.map_cons, List.foldlM_cons, hstep]
                    show List.foldlM (applyMem d)
                      (done ++ fv :: fds'.map (fun fd => zeroField fd.kind)) rest = _
                    rw [show done ++ fv :: fds'.map (fun fd => zeroField fd.kind) =
                      (done ++ [fv]) ++ fds'.map (fun fd => zeroField fd.kind) by simp]
                    rw [hih]
                    simp [hcase]
          · rw [if_neg hcase] at hm
            have hih := ih fvs (pre ++ [fd]) (done ++ [zeroField fd.kind]) mems
              (by rw [hsplit]; simp)
              (by simp [hdone])
              (by simpa using hlen)
              htytl hm
            rw [show done ++ (fd :: fds').map (fun fd => zeroField fd.kind) =
              (done ++ [zeroField fd.kind]) ++ fds'.map (fun fd => zeroField fd.kind) by
              simp]
            rw [hih]
            simp [hcase]
            rw [if_neg (by simpa [Bool.not_eq_true] using hcase)]

theorem unmarshal_marshal (d : StructDesc) (v : StructVal)
    (hnodup : (d.fields.map FieldDesc.name).Nodup)
    (htyped : structTyped d v = true) (j : Json)
    (hm : marshalStruct d v = .ok j) :
    unmarshalStruct d j = .ok (decodedImage d v) := by
  cases hmf : marshalFields d.fields v with
  | error e =>
      rw [marshalStruct, hmf] at hm
      exact Except.noConfusion hm
  | ok mems =>
      rw [marshalStruct, hmf] at hm
      have hinj : Json.obj mems = j := by injection hm
      subst hinj
      have hlen : v.length = d.fields.length := by
        have := htyped
        simp only [structTyped, Bool.and_eq_true, decide_eq_true_eq] at this
        exact this.1
      have hall : (d.fields.zip v).all (fun p => fieldTyped p.1.kind p.2) = true := by
        have := htyped
        simp only [structTyped, Bool.and_eq_true, decide_eq_true_eq] at this
        exact this.2
      have hfold := decode_fold d hnodup d.fields v [] [] mems
        (by simp) (by simp) hlen hall hmf
      rw [unmarshalStruct]
      simpa [zeroStruct, decodedImage] using hfold

/-! ## Claim C9: the GET struct round trip -/

theorem lookup_append_none {β : Type} (l₁ l₂ : List (String × β)) (k : String)
    (h : List.lookup k l₁ = none) : List.lookup k (l₁ ++ l₂) = List.lookup k l₂ := by
  induction l₁ with
  | nil => rfl
  | cons p l ih =>
      obtain ⟨k0, v0⟩ := p
      cases hbe : (k == k0) with
      | true => simp [List.lookup, hbe] at h
      | false =>
          rw [List.lookup, hbe] at h
          rw [List.cons_append, List.lookup, hbe]
          exact ih h

theorem muxHandle_ok_inv (reg : Registry) (path : String) (r : Route) (reg2 : Registry)
    (h : muxHandle reg path r = .ok reg2) :
    path ≠ "" ∧ lookupRoute reg path = none ∧ reg2 = reg ++ [(path, r)] := by
  by_cases hp : path = ""
  · rw [muxHandle, if_pos hp] at h
    exact Except.noConfusion h
  · rw [muxHandle, if_neg hp] at h
    by_cases hl : (lookupRoute reg path).isSome
    · rw [if_pos hl] at h
      exact Except.noConfusion h
    · rw [if_neg hl] at h
      have hinj : reg ++ [(path, r)] = reg2 := by injection h
      exact ⟨hp, Option.not_isSome_iff_eq_none.mp hl, hinj.symm⟩

theorem lookup_registered (reg : Registry) (path : String) (r : Route)
    (h : lookupRoute reg path = none) :
    lookupRoute (reg ++ [(path, r)]) path = some r := by
  rw [lookupRoute] at h ⊢
  rw [lookup_append_none reg [(path, r)] path h]
  simp [List.lookup]

/-- Claim C9 (amended): for every zero-argument GET handler returning a
struct or struct pointer whose value is well typed with distinct field
names and only finite floats, a request with the GET method on the
registered route yields HTTP 200 with Content-Type `application/json`
and the marshalled document as body — compact by default, re-indented
when the configured indentation string is non-empty — and the compact
text JSON-decodes back to the handler's value with the ignore-tagged
(and unexported) fields at their zero values. -/
theorem C9_struct_get_roundtrip (ext : Ext) (cfg : Config) (reg : Registry)
    (d : StructDesc) (v : StructVal) (ret : TypeRep) (r0 : RVal)
    (hret : (ret = .structTy d ∧ r0 = .structV v) ∨
      (ret = .structPtr d ∧ r0 = .structPtrV (some v)))
    (hnodup : (d.fields.map FieldDesc.name).Nodup)
    (htyped : structTyped d v = true) (hfin : structFinite v = true)
    (path : String) (reg2 : Registry)
    (hreg : HandleGET ext reg path (.func ⟨[], [ret], fun _ => [r0]⟩) [] = .ok reg2)
    (route : Route) (hroute : lookupRoute reg2 path = some route)
    (req : Request) (hmeth : req.method = "GET") :
    ∃ j, marshalStruct d v = .ok j ∧
      serveHTTP cfg route req = .ok
        { status := 200, contentType := "application/json",
          body := if cfg.indentJSON = "" then String.mk (renderJson j)
                  else String.mk (renderJsonInd cfg.indentJSON.data 0 j) } ∧
      parseJsonText (String.mk (renderJson j)) = some j ∧
      unmarshalStruct d j = .ok (decodedImage d v) := by
  have hlen : v.length = d.fields.length := by
    have h := htyped
    simp only [structTyped, Bool.and_eq_true, decide_eq_true_eq] at h
    exact h.1
  have hfin' : ∀ fv ∈ v, fieldFinite fv = true := by
    intro fv hfv
    have h := hfin
    simp only [structFinite, List.all_eq_true] at h
    exact h fv hfv
  obtain ⟨mems, hmems⟩ := marshalFields_ok d.fields v hlen hfin'
  have hms : marshalStruct d v = .ok (.obj mems) := by
    rw [marshalStruct, hmems]; rfl
  have hsc : ∀ m ∈ mems, scalarJson m.2 = true :=
    marshalFields_scalar d.fields v mems hmems
  refine ⟨.obj mems, hms, ?_, parseJsonText_round_obj mems hsc,
    unmarshal_marshal d v hnodup htyped _ hms⟩
  rcases hret with ⟨hr1, hr2⟩ | ⟨hr1, hr2⟩
  · subst hr1; subst hr2
    obtain ⟨hp, hlnone, hreq2⟩ := muxHandle_ok_inv reg path _ reg2 hreg
    subst hreq2
    rw [lookup_registered reg path _ hlnone] at hroute
    have hrq := Option.some.inj hroute
    subst hrq
    simp [serveHTTP, hmeth, Except.map, errOf, marshalTop, hms]
  · subst hr1; subst hr2
    obtain ⟨hp, hlnone, hreq2⟩ := muxHandle_ok_inv reg path _ reg2 hreg
    subst hreq2
    rw [lookup_registered reg path _ hlnone] at hroute
    have hrq := Option.some.inj hroute
    subst hrq
    simp [serveHTTP, hmeth, Except.map, errOf, marshalTop, hms]

/-- Witness for C9's amended statement: `func() *AB` returning
`&AB{A: 1, B: "x"}` on route `/s`, served with the zero config. -/
theorem C9_struct_get_roundtrip_witness :
    ∃ reg2 route,
      HandleGET extDefault [] "/s" fnGetAB [] = .ok reg2 ∧
      lookupRoute reg2 "/s" = some route ∧
      ∃ j, marshalStruct descAB valAB = .ok j ∧
        serveHTTP cfgZero route reqGETzero = .ok
          { status := 200, contentType := "application/json",
            body := if cfgZero.indentJSON = "" then String.mk (renderJson j)
                    else String.mk (renderJsonInd cfgZero.indentJSON.data 0 j) } ∧
        parseJsonText (String.mk (renderJson j)) = some j ∧
        unmarshalStruct descAB j = .ok (decodedImage descAB valAB) :=
  ⟨_, _, rfl, rfl,
    C9_struct_get_roundtrip extDefault cfgZero [] descAB valAB (.structPtr descAB)
      (.structPtrV (some valAB)) (Or.inr ⟨rfl, rfl⟩) (by decide) (by decide) (by decide)
      "/s" _ rfl _ rfl reqGETzero rfl⟩

/-- Counterexample to C9 as stated: the valid zero-argument GET handler
`func() *F` returning `&F{F: math.Inf(1)}` does not get HTTP 200 with a
JSON body — `json.Marshal` fails on the non-finite float and the
response is the 500 produced by `writeError`. -/
theorem C9_counterexample :
    ∃ reg r,
      HandleGET extDefault [] "/inf" fnGetInf [] = .ok reg ∧
      lookupRoute reg "/inf" = some r ∧
      serveHTTP cfgZero r reqGETzero =
        .ok { status := 500, contentType := "text/plain; charset=utf-8",
              body := "json: unsupported value: +Inf\x0a" } ∧
      (500 : Nat) ≠ 200 :=
  ⟨_, _, rfl, rfl, rfl, by decide⟩

end GoRest
